import Mathlib

/-!
# Verification of the jp-holidays calendar engine

A shallow embedding of the `jpholiday` Go package: the internal `date` type
and its JST normalization helpers, the `Calendar` engine state (custom
holiday overlay and removed-holiday set layered over the built-in dataset),
and the lookup / enumeration / business-day operations, together with proofs
of the specification claims.

Instants (`time.Time` values) are modelled as integers counting seconds from
the Unix epoch; the engine only ever inspects the absolute instant (Go's
`t.In(jstZone)` conversion changes presentation, not the instant), so this
captures every observable input.  The Go standard library's date conversions
(`Time.Date`, `time.Date`) implement the proleptic Gregorian calendar; they
are modelled here by the standard civil-from-days / days-from-civil
algorithms over `Int`.  The generated `builtinHolidays` map is not part of
the engine source (it is emitted by the excluded data generator), so every
definition is parameterized by an association list `builtin` standing for
that map; Go map iteration visits each key exactly once, which corresponds
to an association list whose keys are pairwise distinct.
-/

/-- Internal comparable date key of the package: a (year, month, day) triple.
Mirrors `type date struct { year int; month time.Month; day int }`
(`time.Month` is an integer). -/
structure date where
  year : Int
  month : Int
  day : Int
deriving DecidableEq, Repr

/-- `func (d date) before(other date) bool`: lexicographic comparison. -/
def date.before (d other : date) : Bool :=
  if d.year ≠ other.year then decide (d.year < other.year)
  else if d.month ≠ other.month then decide (d.month < other.month)
  else decide (d.day < other.day)

/-- `func (d date) after(other date) bool { return other.before(d) }`. -/
def date.after (d other : date) : Bool := other.before d

/-- `func (d date) inRange(from, to date) bool`. -/
def date.inRange (d lo hi : date) : Bool := !(d.before lo) && !(hi.before d)

/-- Instants: seconds since the Unix epoch (the wall-clock reading of a Go
`time.Time`; monotonic-clock data plays no role in this package). -/
abbrev Instant := Int

/-- The fixed UTC+9 offset of `jstZone = time.FixedZone("Asia/Tokyo", 9*60*60)`,
in seconds. -/
def jstOffset : Int := 9 * 60 * 60

/-- Day-of-year of the first day of shifted month `mp` (March-based, `mp = 0`
is March), per the standard civil-calendar algorithm. -/
def doyStart (mp : Int) : Int := (153 * mp + 2) / 5

/-- Shifted month from day-of-year (March-based). -/
def mpOfDoy (doy : Int) : Int := (5 * doy + 2) / 153

/-- Year-of-era (0..399) from day-of-era (0..146096). -/
def yoeOfDoe (doe : Int) : Int := (doe - doe / 1460 + doe / 36524 - doe / 146096) / 365

/-- Days from the civil epoch offset used by the civil-from-days algorithm. -/
def civilBase : Int := 719468

/-- Convert a count of days since 1970-01-01 to the proleptic Gregorian
(year, month, day) triple.  This models what Go's `Time.Date()` computes for
a time lying `days` whole days after the epoch (standard civil-from-days
algorithm; Lean's `Int` division is floor division for positive divisors). -/
def civilFromDays (z0 : Int) : date :=
  let z := z0 + civilBase
  let era := z / 146097
  let doe := z - era * 146097
  let yoe := yoeOfDoe doe
  let y := yoe + era * 400
  let doy := doe - (365 * yoe + yoe / 4 - yoe / 100)
  let mp := mpOfDoy doy
  let d := doy - doyStart mp + 1
  let m := if mp < 10 then mp + 3 else mp - 9
  { year := if m ≤ 2 then y + 1 else y, month := m, day := d }

/-- Convert a proleptic Gregorian (year, month, day) triple to the count of
days since 1970-01-01 (standard days-from-civil algorithm; models Go's
`time.Date(y, m, d, 0,0,0,0, time.UTC).Unix() / 86400`). -/
def daysFromCivil (dt : date) : Int :=
  let y := if dt.month ≤ 2 then dt.year - 1 else dt.year
  let era := y / 400
  let yoe := y - era * 400
  let mp := if dt.month > 2 then dt.month - 3 else dt.month + 9
  let doy := doyStart mp + dt.day - 1
  let doe := yoe * 365 + yoe / 4 - yoe / 100 + doy
  era * 146097 + doe - civilBase

/-- `func dateFromTime(t time.Time) date`: normalize the instant to JST
(UTC+9) and extract the calendar date. -/
def dateFromTime (t : Instant) : date := civilFromDays ((t + jstOffset) / 86400)

/-- `func (d date) toTime() time.Time`: midnight UTC of the date. -/
def date.toTime (d : date) : Instant := daysFromCivil d * 86400

/-- Weekday (Go numbering: Sunday = 0 .. Saturday = 6) of the instant as seen
in JST; models `t.In(jstZone).Weekday()`.  1970-01-01 was a Thursday (= 4). -/
def weekdayJST (t : Instant) : Int := (((t + jstOffset) / 86400) + 4) % 7

/-- `y` is a proleptic Gregorian leap year (Go `isLeap`). -/
def isLeapYear (y : Int) : Bool := y % 4 == 0 && (y % 100 != 0 || y % 400 == 0)

/-- Number of days in month `m` of year `y`. -/
def daysInMonth (y m : Int) : Int :=
  if m = 2 then (if isLeapYear y then 29 else 28)
  else if m = 4 ∨ m = 6 ∨ m = 9 ∨ m = 11 then 30 else 31

/-- The triple is a real proleptic Gregorian calendar date. -/
def validDate (d : date) : Prop :=
  1 ≤ d.month ∧ d.month ≤ 12 ∧ 1 ≤ d.day ∧ d.day ≤ daysInMonth d.year d.month

instance (d : date) : Decidable (validDate d) := by
  unfold validDate; infer_instance

/-! ## Arithmetic core

The civil-calendar conversion proofs.  The key coordinates for a year-of-era
`yoe ∈ [0, 399]` are `yoe = 100*c + 4*u + v` with `c ∈ [0,3]`, `u ∈ [0,24]`,
`v ∈ [0,3]`, under which the day-of-era of March 1 of that year is exactly
`36524*c + 1461*u + 365*v`. -/

/-- 1 when the shifted year `yoe` of an era contains a leap day (its civil
year `yoe + 1` of the era is leap), else 0. -/
def leapFlag (yoe : Int) : Int :=
  if (yoe + 1) % 4 = 0 ∧ ((yoe + 1) % 100 ≠ 0 ∨ (yoe + 1) % 400 = 0) then 1 else 0

theorem leapFlag_coords (c u v : Int)
    (hc : 0 ≤ c) (hc3 : c ≤ 3) (hu : 0 ≤ u) (hu24 : u ≤ 24) (hv : 0 ≤ v) (hv3 : v ≤ 3)
    (h99 : 4 * u + v ≤ 99) :
    leapFlag (100 * c + 4 * u + v) = (if v = 3 ∧ (u ≠ 24 ∨ c = 3) then 1 else 0) := by
  unfold leapFlag
  split
  · split
    · rfl
    · omega
  · split
    · omega
    · rfl

theorem yoe_coords (yoe : Int) (h0 : 0 ≤ yoe) (h399 : yoe ≤ 399) :
    ∃ c u v, 0 ≤ c ∧ c ≤ 3 ∧ 0 ≤ u ∧ u ≤ 24 ∧ 0 ≤ v ∧ v ≤ 3 ∧ 4 * u + v ≤ 99 ∧
      yoe = 100 * c + 4 * u + v ∧ yoe / 4 = 25 * c + u ∧ yoe / 100 = c := by
  refine ⟨yoe / 100, (yoe - 100 * (yoe / 100)) / 4, yoe - 4 * (yoe / 4), ?_, ?_, ?_, ?_,
    ?_, ?_, ?_, ?_, ?_, ?_⟩ <;> omega

theorem master_recover (c u v doy doe : Int)
    (hc : 0 ≤ c) (hc3 : c ≤ 3) (hu : 0 ≤ u) (hu24 : u ≤ 24) (hv : 0 ≤ v) (hv3 : v ≤ 3)
    (hdoy : 0 ≤ doy)
    (hdoyU : doy ≤ 364 + (if v = 3 ∧ (u ≠ 24 ∨ c = 3) then 1 else 0))
    (hdoe : doe = 36524 * c + 1461 * u + 365 * v + doy) :
    0 ≤ doe ∧ doe ≤ 146096 ∧
    doe / 146096 = (if doe = 146096 then 1 else 0) ∧
    doe / 36524 - doe / 146096 = c ∧
    (doe - doe / 1460 + doe / 36524 - doe / 146096) / 365 = 100 * c + 4 * u + v := by
  by_cases hedge : doe = 146096
  · have hcuv : c = 3 ∧ u = 24 ∧ v = 3 ∧ doy = 365 := by
      split at hdoyU <;> omega
    rw [if_pos hedge]
    subst hedge
    obtain ⟨h1, h2, h3, h4⟩ := hcuv
    subst h1; subst h2; subst h3
    norm_num
  · rw [if_neg hedge]
    have hbound : 0 ≤ doe ∧ doe ≤ 146095 := by split at hdoyU <;> omega
    have hf : doe / 146096 = 0 := by omega
    have heU : doe ≤ 36524 * c + 36523 := by split at hdoyU <;> omega
    have heL : 36524 * c ≤ doe := by omega
    have he : doe / 36524 = c := by omega
    by_cases hflag : 24 * c + u + 365 * v + doy ≥ 1460
    · have he1 : doe / 1460 = 25 * c + u + 1 := by omega
      have hrem : 1 ≤ doy ∧ doy - 1 ≤ 364 := by split at hdoyU <;> omega
      refine ⟨by omega, by omega, hf, by omega, by omega⟩
    · have he1 : doe / 1460 = 25 * c + u := by omega
      have hdoy364 : doy ≤ 364 := by split at hdoyU <;> omega
      refine ⟨by omega, by omega, hf, by omega, by omega⟩

/-- Year-of-era recovery: the `yoeOfDoe` formula inverts the start-of-year
day-of-era computation, for any day of the year. -/
theorem yoe_recover (yoe doy doe : Int) (h0 : 0 ≤ yoe) (h399 : yoe ≤ 399)
    (hd0 : 0 ≤ doy) (hdU : doy ≤ 364 + leapFlag yoe)
    (hdoe : doe = 365 * yoe + yoe / 4 - yoe / 100 + doy) :
    0 ≤ doe ∧ doe ≤ 146096 ∧ yoeOfDoe doe = yoe := by
  obtain ⟨c, u, v, hc, hc3, hu, hu24, hv, hv3, h99, hyoe, hq4, hq100⟩ := yoe_coords yoe h0 h399
  rw [hyoe, leapFlag_coords c u v hc hc3 hu hu24 hv hv3 h99] at hdU
  have hdoe' : doe = 36524 * c + 1461 * u + 365 * v + doy := by omega
  have := master_recover c u v doy doe hc hc3 hu hu24 hv hv3 hd0 hdU hdoe'
  unfold yoeOfDoe
  exact ⟨this.1, this.2.1, by rw [this.2.2.2.2, hyoe]⟩

theorem leapFlag_bounds (yoe : Int) : 0 ≤ leapFlag yoe ∧ leapFlag yoe ≤ 1 := by
  unfold leapFlag; split <;> omega

theorem leapFlag_399 : leapFlag 399 = 1 := by decide

/-- Length of shifted year `yoe` of an era, stepping to the next year. -/
theorem year_len (yoe : Int) (h0 : 0 ≤ yoe) (h : yoe ≤ 398) :
    365 * (yoe + 1) + (yoe + 1) / 4 - (yoe + 1) / 100
      = 365 * yoe + yoe / 4 - yoe / 100 + 365 + leapFlag yoe := by
  unfold leapFlag; split <;> omega

/-- Every day-of-era number belongs to exactly one shifted year of the era. -/
theorem era_partition_nat : ∀ n : Nat, n ≤ 146096 →
    ∃ yoe doy : Int, 0 ≤ yoe ∧ yoe ≤ 399 ∧ 0 ≤ doy ∧ doy ≤ 364 + leapFlag yoe ∧
      (n : Int) = 365 * yoe + yoe / 4 - yoe / 100 + doy := by
  intro n
  induction n with
  | zero => exact fun _ => ⟨0, 0, by norm_num, by norm_num, by norm_num,
      by have := leapFlag_bounds 0; omega, by norm_num⟩
  | succ n ih =>
    intro hle
    obtain ⟨yoe, doy, h1, h2, h3, h4, h5⟩ := ih (by omega)
    by_cases hstep : doy < 364 + leapFlag yoe
    · exact ⟨yoe, doy + 1, h1, h2, by omega, by omega, by push_cast; omega⟩
    · have hdoy : doy = 364 + leapFlag yoe := by omega
      have hy398 : yoe ≤ 398 := by
        by_contra hy
        have h399 : yoe = 399 := by omega
        rw [h399, leapFlag_399] at hdoy
        rw [h399] at h5
        norm_num [hdoy] at h5
        omega
      refine ⟨yoe + 1, 0, by omega, by omega, le_refl 0, ?_, ?_⟩
      · have := leapFlag_bounds (yoe + 1); omega
      · have := year_len yoe h1 hy398
        push_cast
        omega

theorem era_partition (doe : Int) (h1 : 0 ≤ doe) (h2 : doe ≤ 146096) :
    ∃ yoe doy : Int, 0 ≤ yoe ∧ yoe ≤ 399 ∧ 0 ≤ doy ∧ doy ≤ 364 + leapFlag yoe ∧
      doe = 365 * yoe + yoe / 4 - yoe / 100 + doy := by
  obtain ⟨yoe, doy, hs⟩ := era_partition_nat doe.toNat (by omega)
  exact ⟨yoe, doy, hs.1, hs.2.1, hs.2.2.1, hs.2.2.2.1, by
    have := hs.2.2.2.2; omega⟩

theorem month_split (doy : Int) (h0 : 0 ≤ doy) (h365 : doy ≤ 365) :
    0 ≤ mpOfDoy doy ∧ mpOfDoy doy ≤ 11 ∧ doyStart (mpOfDoy doy) ≤ doy ∧
      doy < doyStart (mpOfDoy doy + 1) := by
  unfold mpOfDoy doyStart; omega

/-- Translation of the in-era leap flag to the civil leap-year predicate. -/
theorem leap_transfer (era yoe : Int) :
    (isLeapYear (yoe + era * 400 + 1) = true) ↔ leapFlag yoe = 1 := by
  simp only [isLeapYear, leapFlag, Bool.and_eq_true, Bool.or_eq_true, beq_iff_eq,
    bne_iff_ne, ne_eq]
  split
  · rename_i hcond
    constructor
    · intro _; rfl
    · intro _
      constructor
      · omega
      · rcases hcond.2 with h | h
        · left; omega
        · right; omega
  · rename_i hcond
    constructor
    · intro hy
      exfalso
      apply hcond
      constructor
      · omega
      · rcases hy.2 with h | h
        · left; omega
        · right; omega
    · intro h; exact absurd h (by norm_num)

/-! ## The abstract date produced by `civilFromDays` -/

/-- The (era, year-of-era, day-of-year) presentation of a civil date,
matching the tail of the `civilFromDays` computation. -/
def dateOfYoeDoy (era yoe doy : Int) : date :=
  let mp := mpOfDoy doy
  let d := doy - doyStart mp + 1
  let m := if mp < 10 then mp + 3 else mp - 9
  { year := if m ≤ 2 then yoe + era * 400 + 1 else yoe + era * 400, month := m, day := d }

theorem dateOf_eval_lo (era yoe doy : Int) (h0 : 0 ≤ mpOfDoy doy) (h10 : mpOfDoy doy < 10) :
    dateOfYoeDoy era yoe doy =
      { year := yoe + era * 400, month := mpOfDoy doy + 3,
        day := doy - doyStart (mpOfDoy doy) + 1 } := by
  simp only [dateOfYoeDoy]
  rw [if_pos h10, if_neg (by omega : ¬(mpOfDoy doy + 3 ≤ 2))]

theorem dateOf_eval_hi (era yoe doy : Int) (h11 : mpOfDoy doy ≤ 11) (h10 : ¬(mpOfDoy doy < 10)) :
    dateOfYoeDoy era yoe doy =
      { year := yoe + era * 400 + 1, month := mpOfDoy doy - 9,
        day := doy - doyStart (mpOfDoy doy) + 1 } := by
  simp only [dateOfYoeDoy]
  rw [if_neg h10, if_pos (by omega : mpOfDoy doy - 9 ≤ 2)]

theorem civil_eval (z era yoe doy : Int)
    (hz : z + civilBase = era * 146097 + (365 * yoe + yoe / 4 - yoe / 100 + doy))
    (hb1 : 0 ≤ 365 * yoe + yoe / 4 - yoe / 100 + doy)
    (hb2 : 365 * yoe + yoe / 4 - yoe / 100 + doy ≤ 146096)
    (hrec : yoeOfDoe (365 * yoe + yoe / 4 - yoe / 100 + doy) = yoe) :
    civilFromDays z = dateOfYoeDoy era yoe doy := by
  have hera : (z + civilBase) / 146097 = era := by omega
  simp only [civilFromDays, dateOfYoeDoy, hera]
  have hdoe : z + civilBase - era * 146097 = 365 * yoe + yoe / 4 - yoe / 100 + doy := by omega
  rw [hdoe, hrec]
  have hdoy : 365 * yoe + yoe / 4 - yoe / 100 + doy - (365 * yoe + yoe / 4 - yoe / 100) = doy := by
    omega
  rw [hdoy]

/-- `civilFromDays` at a day number presented in (era, yoe, doy) coordinates. -/
theorem civil_eval' (z era yoe doy : Int)
    (hy0 : 0 ≤ yoe) (hy1 : yoe ≤ 399) (hd0 : 0 ≤ doy) (hdU : doy ≤ 364 + leapFlag yoe)
    (hz : z + civilBase = era * 146097 + (365 * yoe + yoe / 4 - yoe / 100 + doy)) :
    civilFromDays z = dateOfYoeDoy era yoe doy := by
  have hrec := yoe_recover yoe doy (365 * yoe + yoe / 4 - yoe / 100 + doy) hy0 hy1 hd0 hdU rfl
  exact civil_eval z era yoe doy hz hrec.1 hrec.2.1 hrec.2.2

theorem days_dateOf (era yoe doy : Int) (hy0 : 0 ≤ yoe) (hy399 : yoe ≤ 399)
    (hd0 : 0 ≤ doy) (hdU : doy ≤ 365) :
    daysFromCivil (dateOfYoeDoy era yoe doy)
      = era * 146097 + (365 * yoe + yoe / 4 - yoe / 100 + doy) - civilBase := by
  have hmp := month_split doy hd0 hdU
  by_cases h10 : mpOfDoy doy < 10
  · rw [dateOf_eval_lo era yoe doy (by omega) h10]
    simp only [daysFromCivil]
    rw [if_neg (by omega : ¬(mpOfDoy doy + 3 ≤ 2)), if_pos (by omega : mpOfDoy doy + 3 > 2)]
    have hera : (yoe + era * 400) / 400 = era := by omega
    rw [hera]
    have h1 : mpOfDoy doy + 3 - 3 = mpOfDoy doy := by omega
    rw [h1]
    have h2 : doyStart (mpOfDoy doy) + (doy - doyStart (mpOfDoy doy) + 1) - 1 = doy := by omega
    rw [h2]
    have h3 : yoe + era * 400 - era * 400 = yoe := by omega
    rw [h3]
    ring
  · rw [dateOf_eval_hi era yoe doy (by omega) h10]
    simp only [daysFromCivil]
    rw [if_pos (by omega : mpOfDoy doy - 9 ≤ 2), if_neg (by omega : ¬(mpOfDoy doy - 9 > 2))]
    have hy1 : yoe + era * 400 + 1 - 1 = yoe + era * 400 := by omega
    rw [hy1]
    have hera : (yoe + era * 400) / 400 = era := by omega
    rw [hera]
    have h1 : mpOfDoy doy - 9 + 9 = mpOfDoy doy := by omega
    rw [h1]
    have h2 : doyStart (mpOfDoy doy) + (doy - doyStart (mpOfDoy doy) + 1) - 1 = doy := by omega
    rw [h2]
    have h3 : yoe + era * 400 - era * 400 = yoe := by omega
    rw [h3]
    ring

theorem daysInMonth_bounds (y m : Int) : 28 ≤ daysInMonth y m ∧ daysInMonth y m ≤ 31 := by
  unfold daysInMonth; split_ifs <;> omega

theorem mpOfDoy_inv (mp D : Int) (h0 : 0 ≤ mp) (h11 : mp ≤ 11) (hD : 1 ≤ D)
    (hDle : D ≤ doyStart (mp + 1) - doyStart mp) :
    mpOfDoy (doyStart mp + D - 1) = mp := by
  unfold mpOfDoy doyStart at *
  omega

/-- Each month fits inside its day-of-year segment. -/
theorem month_len_le (y M : Int) (h1 : 1 ≤ M) (h12 : M ≤ 12) :
    daysInMonth y M ≤
      doyStart ((if M > 2 then M - 3 else M + 9) + 1) - doyStart (if M > 2 then M - 3 else M + 9)
    := by
  have h12' : M = 1 ∨ M = 2 ∨ M = 3 ∨ M = 4 ∨ M = 5 ∨ M = 6 ∨ M = 7 ∨ M = 8 ∨ M = 9 ∨
      M = 10 ∨ M = 11 ∨ M = 12 := by omega
  rcases h12' with rfl|rfl|rfl|rfl|rfl|rfl|rfl|rfl|rfl|rfl|rfl|rfl <;>
    simp only [daysInMonth, doyStart] <;> norm_num <;> split_ifs <;> omega

/-- The date computed by `civilFromDays` is always a real calendar date. -/
theorem dateOf_valid (era yoe doy : Int) (hy0 : 0 ≤ yoe) (hy1 : yoe ≤ 399)
    (hd0 : 0 ≤ doy) (hdU : doy ≤ 364 + leapFlag yoe) :
    validDate (dateOfYoeDoy era yoe doy) := by
  have hlf := leapFlag_bounds yoe
  have hmp := month_split doy hd0 (by omega)
  by_cases h10 : mpOfDoy doy < 10
  · rw [dateOf_eval_lo era yoe doy (by omega) h10]
    have h09 : mpOfDoy doy = 0 ∨ mpOfDoy doy = 1 ∨ mpOfDoy doy = 2 ∨ mpOfDoy doy = 3 ∨
        mpOfDoy doy = 4 ∨ mpOfDoy doy = 5 ∨ mpOfDoy doy = 6 ∨ mpOfDoy doy = 7 ∨
        mpOfDoy doy = 8 ∨ mpOfDoy doy = 9 := by omega
    simp only [validDate]
    rcases h09 with heq|heq|heq|heq|heq|heq|heq|heq|heq|heq <;>
      rw [heq] at hmp ⊢ <;>
      simp only [daysInMonth, doyStart] at hmp ⊢ <;>
      norm_num at hmp ⊢ <;>
      omega
  · rw [dateOf_eval_hi era yoe doy (by omega) h10]
    have h1011 : mpOfDoy doy = 10 ∨ mpOfDoy doy = 11 := by omega
    simp only [validDate]
    rcases h1011 with heq|heq <;> rw [heq] at hmp ⊢
    · simp only [daysInMonth, doyStart] at hmp ⊢
      norm_num at hmp ⊢
      omega
    · simp only [daysInMonth, doyStart] at hmp ⊢
      norm_num at hmp ⊢
      by_cases hleap : isLeapYear (yoe + era * 400 + 1) = true
      · rw [if_pos hleap]
        omega
      · rw [if_neg hleap]
        have hne : leapFlag yoe ≠ 1 := fun hflag => hleap ((leap_transfer era yoe).mpr hflag)
        omega

/-- Round trip: converting any day number to a civil date and back is the
identity. -/
theorem days_civil_id (z : Int) : daysFromCivil (civilFromDays z) = z := by
  obtain ⟨yoe, doy, h1, h2, h3, h4, h5⟩ :=
    era_partition (z + civilBase - ((z + civilBase) / 146097) * 146097) (by omega) (by omega)
  have hlf := leapFlag_bounds yoe
  have heval := civil_eval' z ((z + civilBase) / 146097) yoe doy h1 h2 h3 h4 (by omega)
  rw [heval, days_dateOf _ yoe doy h1 h2 h3 (by omega)]
  omega

/-- Every day number maps to a real calendar date. -/
theorem civil_valid (z : Int) : validDate (civilFromDays z) := by
  obtain ⟨yoe, doy, h1, h2, h3, h4, h5⟩ :=
    era_partition (z + civilBase - ((z + civilBase) / 146097) * 146097) (by omega) (by omega)
  have heval := civil_eval' z ((z + civilBase) / 146097) yoe doy h1 h2 h3 h4 (by omega)
  rw [heval]
  exact dateOf_valid _ yoe doy h1 h2 h3 h4

theorem civil_days_case (Y M D : Int) (era yoe : Int)
    (hyd : (if M ≤ 2 then Y - 1 else Y) = 400 * era + yoe)
    (hy0 : 0 ≤ yoe) (hy1 : yoe ≤ 399)
    (hm1 : 1 ≤ M) (hm12 : M ≤ 12)
    (hd1 : 1 ≤ D)
    (hdoyU : doyStart (if M > 2 then M - 3 else M + 9) + D - 1 ≤ 364 + leapFlag yoe)
    (hmpinv : mpOfDoy (doyStart (if M > 2 then M - 3 else M + 9) + D - 1)
        = (if M > 2 then M - 3 else M + 9)) :
    civilFromDays (daysFromCivil ⟨Y, M, D⟩) = ⟨Y, M, D⟩ := by
  have hds0 : 0 ≤ doyStart (if M > 2 then M - 3 else M + 9) := by
    unfold doyStart; split <;> omega
  have hd0 : 0 ≤ doyStart (if M > 2 then M - 3 else M + 9) + D - 1 := by omega
  have hz : daysFromCivil ⟨Y, M, D⟩ + civilBase
      = era * 146097 + (365 * yoe + yoe / 4 - yoe / 100 +
          (doyStart (if M > 2 then M - 3 else M + 9) + D - 1)) := by
    simp only [daysFromCivil]
    rw [hyd]
    have hera : (400 * era + yoe) / 400 = era := by omega
    rw [hera]
    omega
  have heval := civil_eval' (daysFromCivil ⟨Y, M, D⟩) era yoe
    (doyStart (if M > 2 then M - 3 else M + 9) + D - 1) hy0 hy1 hd0 hdoyU hz
  rw [heval]
  by_cases hM2 : M > 2
  · rw [if_pos hM2] at hmpinv ⊢
    have h0 : 0 ≤ mpOfDoy (doyStart (M - 3) + D - 1) := by omega
    have h10 : mpOfDoy (doyStart (M - 3) + D - 1) < 10 := by omega
    rw [dateOf_eval_lo era yoe _ h0 h10, hmpinv]
    have hY : Y = yoe + era * 400 := by
      rw [if_neg (by omega : ¬ (M ≤ 2))] at hyd; omega
    simp only [date.mk.injEq]
    refine ⟨by omega, by omega, by omega⟩
  · rw [if_neg hM2] at hmpinv ⊢
    have h11 : mpOfDoy (doyStart (M + 9) + D - 1) ≤ 11 := by omega
    have h10 : ¬ (mpOfDoy (doyStart (M + 9) + D - 1) < 10) := by omega
    rw [dateOf_eval_hi era yoe _ h11 h10, hmpinv]
    have hY : Y - 1 = 400 * era + yoe := by
      rw [if_pos (by omega : M ≤ 2)] at hyd; omega
    simp only [date.mk.injEq]
    refine ⟨by omega, by omega, by omega⟩

/-- Round trip: a real calendar date survives conversion to a day number and
back. -/
theorem civil_days_id (dt : date) (h : validDate dt) :
    civilFromDays (daysFromCivil dt) = dt := by
  obtain ⟨Y, M, D⟩ := dt
  simp only [validDate] at h
  obtain ⟨hm1, hm12, hd1, hdM⟩ := h
  have hdMb := daysInMonth_bounds Y M
  refine civil_days_case Y M D ((if M ≤ 2 then Y - 1 else Y) / 400)
    ((if M ≤ 2 then Y - 1 else Y) - ((if M ≤ 2 then Y - 1 else Y) / 400) * 400)
    (by omega) (by omega) (by omega) hm1 hm12 hd1 ?_ ?_
  · have hlf := leapFlag_bounds
      ((if M ≤ 2 then Y - 1 else Y) - ((if M ≤ 2 then Y - 1 else Y) / 400) * 400)
    by_cases hM2 : M > 2
    · rw [if_pos hM2]
      have : doyStart (M - 3) ≤ 275 := by unfold doyStart; omega
      omega
    · rw [if_neg hM2]
      by_cases hM1 : M = 1
      · subst hM1
        have : doyStart (1 + 9) = 306 := by unfold doyStart; norm_num
        omega
      · have hM2' : M = 2 := by omega
        subst hM2'
        have hds : doyStart (2 + 9) = 337 := by unfold doyStart; norm_num
        rw [if_pos (by norm_num : (2:Int) ≤ 2)]
        have hlfd := leapFlag_bounds ((Y - 1) - ((Y - 1) / 400) * 400)
        by_cases hleap : isLeapYear Y = true
        · have hlf1 : leapFlag ((Y - 1) - ((Y - 1) / 400) * 400) = 1 := by
            apply (leap_transfer ((Y - 1) / 400) _).mp
            have harg : ((Y - 1) - ((Y - 1) / 400) * 400) + ((Y - 1) / 400) * 400 + 1 = Y := by
              omega
            rw [harg]
            exact hleap
          have hdM' : D ≤ 29 := by norm_num [daysInMonth, hleap] at hdM; omega
          omega
        · have hdM' : D ≤ 28 := by norm_num [daysInMonth, hleap] at hdM; omega
          have hlf0 : leapFlag ((Y - 1) - ((Y - 1) / 400) * 400) ≠ 1 := by
            intro h1
            apply hleap
            have harg : ((Y - 1) - ((Y - 1) / 400) * 400) + ((Y - 1) / 400) * 400 + 1 = Y := by
              omega
            rw [← harg]
            exact (leap_transfer ((Y - 1) / 400) _).mpr h1
          omega
  · apply mpOfDoy_inv
    · split <;> omega
    · split <;> omega
    · exact hd1
    · exact le_trans hdM (month_len_le Y M hm1 hm12)

/-! ## The lexicographic order on dates and day-number monotonicity -/

theorem before_iff (a b : date) : (a.before b = true) ↔
    (a.year < b.year ∨ (a.year = b.year ∧ (a.month < b.month ∨
      (a.month = b.month ∧ a.day < b.day)))) := by
  unfold date.before
  split_ifs <;> simp <;> omega

theorem before_irrefl (a : date) : a.before a = false := by
  by_cases h : a.before a = true
  · rw [before_iff] at h; omega
  · simp at h; exact h

theorem before_trans (a b c : date) (h1 : a.before b = true) (h2 : b.before c = true) :
    a.before c = true := by
  rw [before_iff] at *
  omega

theorem before_asymm (a b : date) (h1 : a.before b = true) : b.before a = false := by
  by_cases h : b.before a = true
  · rw [before_iff] at *; omega
  · simp at h; exact h

theorem before_total (a b : date) (h1 : a.before b = false) (h2 : b.before a = false) :
    a = b := by
  have ha := before_iff a b
  have hb := before_iff b a
  rw [h1] at ha
  rw [h2] at hb
  simp at ha hb
  obtain ⟨x, y, z⟩ := a
  obtain ⟨x', y', z'⟩ := b
  simp_all
  omega

/-- Stepping one day forward moves to a strictly later calendar date. -/
theorem civil_step (z : Int) :
    (civilFromDays z).before (civilFromDays (z + 1)) = true := by
  obtain ⟨yoe, doy, h1, h2, h3, h4, h5⟩ :=
    era_partition (z + civilBase - ((z + civilBase) / 146097) * 146097) (by omega) (by omega)
  have hlf := leapFlag_bounds yoe
  have heval1 := civil_eval' z ((z + civilBase) / 146097) yoe doy h1 h2 h3 h4 (by omega)
  by_cases hstep : doy < 364 + leapFlag yoe
  · have heval2 := civil_eval' (z + 1) ((z + civilBase) / 146097) yoe (doy + 1) h1 h2
      (by omega) (by omega) (by omega)
    rw [heval1, heval2]
    have hms1 := month_split doy h3 (by omega)
    have hms2 := month_split (doy + 1) (by omega) (by omega)
    have hb1 : mpOfDoy (doy + 1) ≤ mpOfDoy doy + 1 := by
      simp only [mpOfDoy, doyStart] at hms1 hms2 ⊢; omega
    have hb2 : mpOfDoy doy ≤ mpOfDoy (doy + 1) := by
      unfold mpOfDoy; omega
    by_cases heq : mpOfDoy (doy + 1) = mpOfDoy doy
    · by_cases h10 : mpOfDoy doy < 10
      · rw [dateOf_eval_lo _ yoe doy (by omega) h10,
          dateOf_eval_lo _ yoe (doy + 1) (by omega) (by omega)]
        rw [before_iff]
        dsimp only
        rw [heq]
        omega
      · rw [dateOf_eval_hi _ yoe doy (by omega) h10,
          dateOf_eval_hi _ yoe (doy + 1) (by omega) (by omega)]
        rw [before_iff]
        dsimp only
        rw [heq]
        omega
    · have heq1 : mpOfDoy (doy + 1) = mpOfDoy doy + 1 := by omega
      by_cases hc1 : mpOfDoy doy ≤ 8
      · rw [dateOf_eval_lo _ yoe doy (by omega) (by omega),
          dateOf_eval_lo _ yoe (doy + 1) (by omega) (by omega)]
        rw [before_iff]
        dsimp only
        omega
      · by_cases hc2 : mpOfDoy doy = 9
        · rw [dateOf_eval_lo _ yoe doy (by omega) (by omega),
            dateOf_eval_hi _ yoe (doy + 1) (by omega) (by omega)]
          rw [before_iff]
          dsimp only
          omega
        · have hc3 : mpOfDoy doy = 10 := by omega
          rw [dateOf_eval_hi _ yoe doy (by omega) (by omega),
            dateOf_eval_hi _ yoe (doy + 1) (by omega) (by omega)]
          rw [before_iff]
          dsimp only
          omega
  · have hdoy : doy = 364 + leapFlag yoe := by omega
    have hmp11 : mpOfDoy doy = 11 := by unfold mpOfDoy; omega
    have hmp0 : mpOfDoy 0 = 0 := by decide
    have hds0 : doyStart 0 = 0 := by decide
    by_cases hy399 : yoe ≤ 398
    · have hyl := year_len yoe h1 hy399
      have hlf2 := leapFlag_bounds (yoe + 1)
      have heval2 := civil_eval' (z + 1) ((z + civilBase) / 146097) (yoe + 1) 0
        (by omega) (by omega) (by omega) (by omega) (by omega)
      rw [heval1, heval2]
      rw [dateOf_eval_hi _ yoe doy (by omega) (by omega),
        dateOf_eval_lo _ (yoe + 1) 0 (by omega) (by omega)]
      rw [before_iff]
      dsimp only
      rw [hmp11, hmp0]
      omega
    · have hy : yoe = 399 := by omega
      subst hy
      rw [leapFlag_399] at hdoy
      have heval2 := civil_eval' (z + 1) ((z + civilBase) / 146097 + 1) 0 0
        (by omega) (by omega) (by omega) (by have := leapFlag_bounds 0; omega) (by omega)
      rw [heval1, heval2]
      rw [dateOf_eval_hi _ 399 doy (by omega) (by omega),
        dateOf_eval_lo _ 0 0 (by omega) (by omega)]
      rw [before_iff]
      dsimp only
      rw [hmp11, hmp0]
      omega

/-- Monotonicity: later day numbers give lexicographically later dates. -/
theorem civil_mono (z1 z2 : Int) (h : z1 < z2) :
    (civilFromDays z1).before (civilFromDays z2) = true := by
  have key : ∀ n : Nat, (civilFromDays z1).before (civilFromDays (z1 + 1 + n)) = true := by
    intro n
    induction n with
    | zero => simpa using civil_step z1
    | succ n ih =>
      have hstep := civil_step (z1 + 1 + n)
      have harith : (z1 + 1 + n) + 1 = z1 + 1 + (n + 1 : Nat) := by push_cast; ring
      rw [harith] at hstep
      exact before_trans _ _ _ ih hstep
  have harith : z2 = z1 + 1 + ((z2 - z1 - 1).toNat : Int) := by omega
  rw [harith]
  exact key _

theorem civil_inj (z1 z2 : Int) (h : civilFromDays z1 = civilFromDays z2) : z1 = z2 := by
  have h1 := days_civil_id z1
  have h2 := days_civil_id z2
  rw [h] at h1
  omega

/-- On real calendar dates, the lexicographic order agrees with the
day-number order. -/
theorem before_days (a b : date) (ha : validDate a) (hb : validDate b) :
    (a.before b = true) ↔ daysFromCivil a < daysFromCivil b := by
  constructor
  · intro h
    rcases lt_trichotomy (daysFromCivil a) (daysFromCivil b) with hlt | heq | hgt
    · exact hlt
    · exfalso
      have hab : a = b := by
        rw [← civil_days_id a ha, ← civil_days_id b hb, heq]
      rw [hab, before_irrefl] at h
      cases h
    · exfalso
      have := civil_mono _ _ hgt
      rw [civil_days_id b hb, civil_days_id a ha] at this
      rw [before_asymm b a this] at h
      cases h
  · intro h
    have := civil_mono _ _ h
    rw [civil_days_id a ha, civil_days_id b hb] at this
    exact this

/-! ## Instants -/

theorem dateFromTime_valid (t : Instant) : validDate (dateFromTime t) := civil_valid _

/-- The engine's date-only instants normalize back to the same date. -/
theorem dateFromTime_toTime (d : date) (h : validDate d) : dateFromTime d.toTime = d := by
  unfold dateFromTime date.toTime
  have harith : (daysFromCivil d * 86400 + jstOffset) / 86400 = daysFromCivil d := by
    unfold jstOffset; omega
  rw [harith]
  exact civil_days_id d h

theorem dateFromTime_inj (t1 t2 : Instant) (h : dateFromTime t1 = dateFromTime t2) :
    (t1 + jstOffset) / 86400 = (t2 + jstOffset) / 86400 :=
  civil_inj _ _ h

theorem weekday_of_eq_date (t1 t2 : Instant) (h : dateFromTime t1 = dateFromTime t2) :
    weekdayJST t1 = weekdayJST t2 := by
  unfold weekdayJST
  rw [dateFromTime_inj t1 t2 h]

/-! ## The Calendar engine

State of `type Calendar struct { mu sync.RWMutex; custom map[date]string;
removed map[date]bool }`.  The two Go maps are modelled as an association
list and a list of keys; every operation below takes the generated
`builtinHolidays` map as the extra `builtin` parameter.  Locking disappears:
each Go method holds the lock for its whole body, so its observable behavior
is that of the pure function of the pre-state modelled here. -/

structure Calendar where
  custom : List (date × String)
  removed : List date
deriving DecidableEq, Repr

/-- `func New() *Calendar`: a calendar with an empty overlay. -/
def Calendar.New : Calendar := ⟨[], []⟩

/-- `type Holiday struct { Date time.Time; Name string }`. -/
structure Holiday where
  Date : Instant
  Name : String
deriving DecidableEq, Repr

/-- `func (c *Calendar) lookup(d date) (string, bool)`: custom first, then
the removed set, then the built-in dataset.  `none` models `("", false)`. -/
def Calendar.lookup (builtin : List (date × String)) (c : Calendar) (d : date) : Option String :=
  match c.custom.lookup d with
  | some name => some name
  | none => if d ∈ c.removed then none else builtin.lookup d

/-- `func (c *Calendar) IsHoliday(t time.Time) bool`. -/
def Calendar.IsHoliday (builtin : List (date × String)) (c : Calendar) (t : Instant) : Bool :=
  (c.lookup builtin (dateFromTime t)).isSome

/-- `func (c *Calendar) HolidayName(t time.Time) string`. -/
def Calendar.HolidayName (builtin : List (date × String)) (c : Calendar) (t : Instant) : String :=
  (c.lookup builtin (dateFromTime t)).getD ""

/-- `func (c *Calendar) IsBusinessDay(t time.Time) bool`: not a weekend (in
JST) and not a holiday.  Saturday = 6, Sunday = 0 in Go's numbering. -/
def Calendar.IsBusinessDay (builtin : List (date × String)) (c : Calendar) (t : Instant) : Bool :=
  if weekdayJST t == 6 || weekdayJST t == 0 then false
  else !(c.IsHoliday builtin t)

/-- One step of the linear scans in `NextHoliday` / `PreviousHoliday`:
`if cand(hd) && (!found || better(hd, best)) { best, bestName, found = ... }`. -/
def selStep (cand : date → Bool) (better : date → date → Bool)
    (acc : Option (date × String)) (e : date × String) : Option (date × String) :=
  match acc with
  | none => if cand e.1 then some e else none
  | some b => if cand e.1 && better e.1 b.1 then some e else some b

/-- `func (c *Calendar) NextHoliday(t time.Time) (Holiday, bool)`: scan the
non-removed built-ins, then the custom entries, keeping the earliest date
strictly after `t`'s date.  `none` models `(Holiday{}, false)`. -/
def Calendar.NextHoliday (builtin : List (date × String)) (c : Calendar) (t : Instant) :
    Option Holiday :=
  let d := dateFromTime t
  let afterBuiltin := (builtin.filter (fun e => !(decide (e.1 ∈ c.removed)))).foldl
    (selStep (fun hd => hd.after d) (fun x y => x.before y)) none
  let best := c.custom.foldl (selStep (fun hd => hd.after d) (fun x y => x.before y)) afterBuiltin
  best.map (fun b => { Date := b.1.toTime, Name := b.2 })

/-- `func (c *Calendar) PreviousHoliday(t time.Time) (Holiday, bool)`. -/
def Calendar.PreviousHoliday (builtin : List (date × String)) (c : Calendar) (t : Instant) :
    Option Holiday :=
  let d := dateFromTime t
  let afterBuiltin := (builtin.filter (fun e => !(decide (e.1 ∈ c.removed)))).foldl
    (selStep (fun hd => hd.before d) (fun x y => x.after y)) none
  let best := c.custom.foldl (selStep (fun hd => hd.before d) (fun x y => x.after y)) afterBuiltin
  best.map (fun b => { Date := b.1.toTime, Name := b.2 })

/-- The bounded day-stepping loop of `NextBusinessDay`/`PreviousBusinessDay`:
`for i := 0; i < 366; i++ { if business(cur) { return cur }; cur = cur.AddDate(0,0,±1) }`.
On midnight-UTC instants `AddDate(0,0,±1)` adds exactly ±86400 seconds.
`none` models the `time.Time{}` zero-value sentinel. -/
def bdScan (builtin : List (date × String)) (c : Calendar) (step : Int) :
    Instant → Nat → Option Instant
  | _, 0 => none
  | cur, Nat.succ n =>
      if c.IsBusinessDay builtin cur then some cur else bdScan builtin c step (cur + step) n

/-- `func (c *Calendar) NextBusinessDay(t time.Time) time.Time`. -/
def Calendar.NextBusinessDay (builtin : List (date × String)) (c : Calendar) (t : Instant) :
    Option Instant :=
  bdScan builtin c 86400 ((dateFromTime t).toTime) 366

/-- `func (c *Calendar) PreviousBusinessDay(t time.Time) time.Time`. -/
def Calendar.PreviousBusinessDay (builtin : List (date × String)) (c : Calendar) (t : Instant) :
    Option Instant :=
  bdScan builtin c (-86400) ((dateFromTime t).toTime) 366

/-- The counting loop of `BusinessDaysBetween`:
`for !cur.After(end) { if business(cur) { count++ }; cur = cur.AddDate(0,0,1) }`. -/
def bdCount (builtin : List (date × String)) (c : Calendar) (endT : Int)
    (cur : Int) : Nat :=
  if h : cur > endT then 0
  else (if c.IsBusinessDay builtin cur then 1 else 0) + bdCount builtin c endT (cur + 86400)
termination_by (endT + 86400 - cur).toNat
decreasing_by
  omega

/-- `func (c *Calendar) BusinessDaysBetween(from, to time.Time) int`. -/
def Calendar.BusinessDaysBetween (builtin : List (date × String)) (c : Calendar)
    (frm toT : Instant) : Nat :=
  let fromD := dateFromTime frm
  let toD := dateFromTime toT
  if toD.before fromD then 0
  else bdCount builtin c toD.toTime fromD.toTime

/-- `func (c *Calendar) holidaysInRange(from, to date) []Holiday`: built-ins
that are neither removed nor shadowed by a custom entry, plus the custom
entries, restricted to the range and sorted ascending by date
(`sort.Slice` with `Date.Before`; dates are pairwise distinct, so the sorted
result is unique and `mergeSort` by `≤` on instants produces it). -/
def Calendar.holidaysInRange (builtin : List (date × String)) (c : Calendar)
    (lo hi : date) : List Holiday :=
  let fromBuiltin := builtin.filter (fun e =>
    !(decide (e.1 ∈ c.removed)) && (c.custom.lookup e.1).isNone && e.1.inRange lo hi)
  let fromCustom := c.custom.filter (fun e => e.1.inRange lo hi)
  ((fromBuiltin ++ fromCustom).map (fun e => { Date := e.1.toTime, Name := e.2 })).mergeSort
    (fun a b => decide (a.Date ≤ b.Date))

/-- `func (c *Calendar) HolidaysBetween(from, to time.Time) []Holiday`. -/
def Calendar.HolidaysBetween (builtin : List (date × String)) (c : Calendar)
    (frm toT : Instant) : List Holiday :=
  let fromD := dateFromTime frm
  let toD := dateFromTime toT
  if toD.before fromD then []
  else c.holidaysInRange builtin fromD toD

/-- `func (c *Calendar) HolidaysInYear(year int) []Holiday`. -/
def Calendar.HolidaysInYear (builtin : List (date × String)) (c : Calendar)
    (year : Int) : List Holiday :=
  c.holidaysInRange builtin ⟨year, 1, 1⟩ ⟨year, 12, 31⟩

/-- `func (c *Calendar) HolidaysInMonth(year int, month time.Month) []Holiday`:
the upper bound is the last day of the month
(`time.Date(year, month+1, 0, ...).Day()` normalizes to it). -/
def Calendar.HolidaysInMonth (builtin : List (date × String)) (c : Calendar)
    (year month : Int) : List Holiday :=
  c.holidaysInRange builtin ⟨year, month, 1⟩ ⟨year, month, daysInMonth year month⟩

/-- `func (c *Calendar) AddCustomHoliday(t time.Time, name string)`: map
write `c.custom[d] = name` (unconditional overwrite). -/
def Calendar.AddCustomHoliday (c : Calendar) (t : Instant) (name : String) : Calendar :=
  let d := dateFromTime t
  { c with custom := (d, name) :: c.custom.filter (fun e => decide (e.1 ≠ d)) }

/-- `func (c *Calendar) RemoveCustomHoliday(t time.Time)`: `delete(c.custom, d)`. -/
def Calendar.RemoveCustomHoliday (c : Calendar) (t : Instant) : Calendar :=
  let d := dateFromTime t
  { c with custom := c.custom.filter (fun e => decide (e.1 ≠ d)) }

/-- `func (c *Calendar) RemoveHoliday(t time.Time)`: `c.removed[d] = true`. -/
def Calendar.RemoveHoliday (c : Calendar) (t : Instant) : Calendar :=
  let d := dateFromTime t
  { c with removed := if d ∈ c.removed then c.removed else d :: c.removed }

/-- `func (c *Calendar) RestoreHoliday(t time.Time)`: `delete(c.removed, d)`. -/
def Calendar.RestoreHoliday (c : Calendar) (t : Instant) : Calendar :=
  let d := dateFromTime t
  { c with removed := c.removed.filter (fun e => decide (e ≠ d)) }

/-! ## Association-list and scan-loop lemmas -/

theorem lookup_isSome_of_mem {α β : Type} [DecidableEq α] {l : List (α × β)} {a : α} {b : β}
    (h : (a, b) ∈ l) : (l.lookup a).isSome := by
  induction l with
  | nil => cases h
  | cons e l ih =>
    rw [List.mem_cons] at h
    cases hbeq : (a == e.1) <;> simp only [List.lookup, hbeq]
    · rcases h with h | h
      · exfalso; subst h; simp at hbeq
      · exact ih h
    · simp

theorem mem_of_lookup {α β : Type} [DecidableEq α] {l : List (α × β)} {a : α} {b : β}
    (h : l.lookup a = some b) : (a, b) ∈ l := by
  induction l with
  | nil => simp [List.lookup] at h
  | cons e l ih =>
    cases hbeq : (a == e.1) <;> simp only [List.lookup, hbeq] at h
    · exact List.mem_cons_of_mem e (ih h)
    · have ha : a = e.1 := by simpa using hbeq
      cases h
      subst ha
      cases e
      exact List.mem_cons_self _ _

theorem lookup_eq_some_of_mem_nodup {α β : Type} [DecidableEq α] {l : List (α × β)} {a : α}
    {b : β} (hn : (l.map Prod.fst).Nodup) (h : (a, b) ∈ l) : l.lookup a = some b := by
  induction l with
  | nil => cases h
  | cons e l ih =>
    simp only [List.map_cons, List.nodup_cons] at hn
    rw [List.mem_cons] at h
    cases hbeq : (a == e.1) <;> simp only [List.lookup, hbeq]
    · rcases h with h | h
      · exfalso; subst h; simp at hbeq
      · exact ih hn.2 h
    · rcases h with h | h
      · subst h; rfl
      · exfalso
        have ha : a = e.1 := by simpa using hbeq
        exact hn.1 (by rw [← ha]; exact List.mem_map.mpr ⟨(a, b), h, rfl⟩)

theorem selStep_none_iff (cand : date → Bool) (better : date → date → Bool)
    (acc : Option (date × String)) (e : date × String) :
    selStep cand better acc e = none ↔ acc = none ∧ cand e.1 = false := by
  rcases acc with _ | a
  · simp only [selStep]
    by_cases hc : cand e.1 = true
    · rw [if_pos hc]
      simp [hc]
    · rw [if_neg hc]
      simpa using hc
  · simp only [selStep]
    split <;> simp

theorem selStep_some_cases (cand : date → Bool) (better : date → date → Bool)
    (acc : Option (date × String)) (e : date × String) (r : date × String)
    (h : selStep cand better acc e = some r) :
    (r = e ∧ cand e.1 = true) ∨ acc = some r := by
  rcases acc with _ | a
  · simp only [selStep] at h
    by_cases hc : cand e.1 = true
    · rw [if_pos hc] at h
      cases h
      exact Or.inl ⟨rfl, hc⟩
    · rw [if_neg hc] at h
      cases h
  · simp only [selStep] at h
    split at h
    · cases h
      rename_i hcond
      exact Or.inl ⟨rfl, (Bool.and_eq_true _ _ |>.mp hcond).1⟩
    · cases h
      exact Or.inr rfl

theorem foldl_selStep_none (cand : date → Bool) (better : date → date → Bool)
    (l : List (date × String)) (acc : Option (date × String)) :
    l.foldl (selStep cand better) acc = none ↔ acc = none ∧ ∀ e ∈ l, cand e.1 = false := by
  induction l generalizing acc with
  | nil => simp
  | cons e l ih =>
    rw [List.foldl_cons, ih, selStep_none_iff]
    constructor
    · rintro ⟨⟨h1, h2⟩, h3⟩
      exact ⟨h1, fun e' he' => by
        rw [List.mem_cons] at he'
        rcases he' with he' | he'
        · rw [he']; exact h2
        · exact h3 e' he'⟩
    · rintro ⟨h1, h2⟩
      exact ⟨⟨h1, h2 e (List.mem_cons_self _ _)⟩,
        fun e' he' => h2 e' (List.mem_cons_of_mem _ he')⟩

theorem foldl_selStep_spec (cand : date → Bool) (better : date → date → Bool)
    (htrans : ∀ x y z, better x y = true → better y z = true → better x z = true)
    (hirr : ∀ x, better x x = false)
    (l : List (date × String)) (acc : Option (date × String)) (b : date × String)
    (hacc : ∀ a, acc = some a → cand a.1 = true)
    (hres : l.foldl (selStep cand better) acc = some b) :
    cand b.1 = true ∧ (b ∈ l ∨ acc = some b) ∧
    (∀ e ∈ l, cand e.1 = true → better e.1 b.1 = false) ∧
    (∀ a, acc = some a → b = a ∨ better b.1 a.1 = true) := by
  have hasymm : ∀ x y, better x y = true → better y x = false := by
    intro x y hxy
    by_cases hyx : better y x = true
    · have := htrans x y x hxy hyx
      rw [hirr] at this
      cases this
    · simpa using hyx
  induction l generalizing acc with
  | nil =>
    simp only [List.foldl_nil] at hres
    exact ⟨hacc b hres, Or.inr hres, by simp,
      fun a ha => Or.inl (by rw [hres] at ha; cases ha; rfl)⟩
  | cons e l ih =>
    rw [List.foldl_cons] at hres
    have hacc' : ∀ a, selStep cand better acc e = some a → cand a.1 = true := by
      intro a ha
      rcases selStep_some_cases cand better acc e a ha with ⟨hae, hc⟩ | hao
      · rw [hae]; exact hc
      · exact hacc a hao
    obtain ⟨hc, hmem, hmin, himp⟩ := ih (selStep cand better acc e) hacc' hres
    refine ⟨hc, ?_, ?_, ?_⟩
    · rcases hmem with hmem | hmem
      · exact Or.inl (List.mem_cons_of_mem _ hmem)
      · rcases selStep_some_cases cand better acc e b hmem with ⟨hbe, _⟩ | hbo
        · exact Or.inl (by rw [hbe]; exact List.mem_cons_self _ _)
        · exact Or.inr hbo
    · intro e' he' hce'
      rw [List.mem_cons] at he'
      rcases he' with he' | he'
      · subst he'
        rcases hsel : selStep cand better acc e' with _ | a1
        · rw [selStep_none_iff] at hsel
          rw [hsel.2] at hce'
          cases hce'
        · have h1 := himp a1 hsel
        -- relate a1 to e'
          rcases selStep_some_cases cand better acc e' a1 hsel with ⟨hae, _⟩ | hao
          · -- a1 = e'
            rw [hae] at h1
            rcases h1 with hbe | hbb
            · rw [hbe, hirr]
            · exact hasymm _ _ hbb
          · -- acc kept: a1 from acc, and the condition failed
            -- from failure: cand e' true means better e'.1 a1.1 = false
            have hbet : better e'.1 a1.1 = false := by
              rcases haccv : acc with _ | a0
              · rw [haccv] at hsel
                simp only [selStep] at hsel
                rw [if_pos hce'] at hsel
                cases hsel
                rw [haccv] at hao
                cases hao
              · rw [haccv] at hsel hao
                cases hao
                simp only [selStep] at hsel
                by_cases hcd : (cand e'.1 && better e'.1 a1.1) = true
                · rw [if_pos hcd] at hsel
                  cases hsel
                  rw [hirr]
                · rw [if_neg hcd] at hsel
                  simp only [hce', Bool.true_and] at hcd
                  simpa using hcd
            by_cases hgoal : better e'.1 b.1 = true
            · exfalso
              rcases h1 with hbe | hbb
              · rw [hbe] at hgoal
                rw [hgoal] at hbet
                cases hbet
              · have := htrans _ _ _ hgoal hbb
                rw [this] at hbet
                cases hbet
            · simpa using hgoal
      · exact hmin e' he' hce'
    · intro a ha
      subst ha
      rcases hsel : selStep cand better (some a) e with _ | a1
      · rw [selStep_none_iff] at hsel
        cases hsel.1
      · have h1 := himp a1 hsel
        simp only [selStep] at hsel
        by_cases hcd : (cand e.1 && better e.1 a.1) = true
        · rw [if_pos hcd] at hsel
          cases hsel
          have hbet : better e.1 a.1 = true := (Bool.and_eq_true _ _ |>.mp hcd).2
          rcases h1 with hbe | hbb
          · right; rw [hbe]; exact hbet
          · right; exact htrans _ _ _ hbb hbet
        · rw [if_neg hcd] at hsel
          cases hsel
          exact h1

theorem bdScan_spec (builtin : List (date × String)) (c : Calendar) (step : Int) (start : Int) (n : Nat) :
    (∀ r, bdScan builtin c step start n = some r →
      ∃ i : Nat, i < n ∧ r = start + step * (i : Int) ∧ c.IsBusinessDay builtin r = true ∧
        ∀ j : Nat, j < i → c.IsBusinessDay builtin (start + step * (j : Int)) = false) ∧
    (bdScan builtin c step start n = none ↔
      ∀ i : Nat, i < n → c.IsBusinessDay builtin (start + step * (i : Int)) = false) := by
  induction n generalizing start with
  | zero =>
    constructor
    · intro r hr
      simp [bdScan] at hr
    · simp [bdScan]
  | succ n ih =>
    constructor
    · intro r hr
      simp only [bdScan] at hr
      by_cases hb : c.IsBusinessDay builtin start = true
      · rw [if_pos hb] at hr
        cases hr
        refine ⟨0, by omega, by push_cast; ring, hb, fun j hj => by omega⟩
      · rw [if_neg hb] at hr
        obtain ⟨i, hi, hrr, hbr, hmin⟩ := (ih (start + step)).1 r hr
        refine ⟨i + 1, by omega, by rw [hrr]; push_cast; ring, hbr, ?_⟩
        intro j hj
        rcases Nat.eq_zero_or_pos j with hj0 | hjp
        · subst hj0
          simpa using hb
        · have := hmin (j - 1) (by omega)
          have hcast : ((j - 1 : Nat) : Int) = (j : Int) - 1 := by omega
          have heq : start + step * (j : Int) = start + step + step * ((j - 1 : Nat) : Int) := by
            rw [hcast]; ring
          rw [heq]
          exact this
    · simp only [bdScan]
      by_cases hb : c.IsBusinessDay builtin start = true
      · rw [if_pos hb]
        constructor
        · intro h; cases h
        · intro h
          have := h 0 (by omega)
          simp at this
          rw [this] at hb
          cases hb
      · rw [if_neg hb]
        rw [(ih (start + step)).2]
        constructor
        · intro h i hi
          rcases Nat.eq_zero_or_pos i with hi0 | hip
          · subst hi0; simpa using hb
          · have := h (i - 1) (by omega)
            have hcast : ((i - 1 : Nat) : Int) = (i : Int) - 1 := by omega
            have heq : start + step * (i : Int)
                = start + step + step * ((i - 1 : Nat) : Int) := by
              rw [hcast]; ring
            rw [heq]
            exact this
        · intro h i hi
          have := h (i + 1) (by omega)
          have heq : start + step + step * (i : Int)
              = start + step * ((i + 1 : Nat) : Int) := by
            push_cast; ring
          rw [heq]
          exact this


theorem bdCount_spec (builtin : List (date × String)) (c : Calendar) : ∀ (n : Nat) (cur : Int),
    bdCount builtin c (cur + 86400 * (n : Int)) cur
      = ((List.range (n + 1)).countP (fun i : Nat => c.IsBusinessDay builtin (cur + 86400 * (i : Int)))) := by
  intro n
  induction n with
  | zero =>
    intro cur
    rw [bdCount]
    rw [dif_neg (by omega)]
    rw [bdCount]
    rw [dif_pos (by omega)]
    show _ = List.countP _ (List.range 1)
    rw [show List.range 1 = [0] from rfl]
    rw [List.countP_cons]
    norm_num
  | succ n ih =>
    intro cur
    rw [bdCount]
    rw [dif_neg (by push_cast; omega)]
    have harith : cur + 86400 * ((n + 1 : Nat) : Int) = (cur + 86400) + 86400 * (n : Int) := by
      push_cast; ring
    rw [harith, ih (cur + 86400)]
    have hp : ((fun i : Nat => c.IsBusinessDay builtin (cur + 86400 * (i : Int))) ∘ Nat.succ)
        = (fun i : Nat => c.IsBusinessDay builtin (cur + 86400 + 86400 * (i : Int))) := by
      funext i
      simp only [Function.comp]
      have : cur + 86400 * ((Nat.succ i : Nat) : Int) = cur + 86400 + 86400 * (i : Int) := by
        push_cast; ring
      rw [this]
    rw [show List.range (n + 1 + 1) = 0 :: (List.range (n + 1)).map Nat.succ from
      List.range_succ_eq_map (n + 1)]
    rw [List.countP_cons, List.countP_map, hp]
    norm_num
    omega

/-! ## Claims -/

/-- Claim C1: for every Calendar state (custom map, removed set) and every
CalendarDate `d` (the JST date of the queried instant), `IsHoliday` is true
iff `d` is in `custom`, or (`d` is not in `removed` and `d` is in the
Dataset); and `HolidayName` resolves in that precedence order: `custom[d]`
when present, otherwise the empty string when `d` is removed, otherwise
`Dataset[d]` when present, otherwise the empty string. -/
theorem claim_C1 (builtin : List (date × String)) (c : Calendar) (t : Instant) :
    (c.IsHoliday builtin t = true ↔
      ((c.custom.lookup (dateFromTime t)).isSome = true ∨
        (dateFromTime t ∉ c.removed ∧ (builtin.lookup (dateFromTime t)).isSome = true))) ∧
    c.HolidayName builtin t =
      (match c.custom.lookup (dateFromTime t) with
       | some n => n
       | none =>
         if dateFromTime t ∈ c.removed then ""
         else (builtin.lookup (dateFromTime t)).getD "") := by
  unfold Calendar.IsHoliday Calendar.HolidayName Calendar.lookup
  rcases hcu : c.custom.lookup (dateFromTime t) with _ | n
  · by_cases hrem : dateFromTime t ∈ c.removed
    · rw [if_pos hrem]
      simp [hrem]
    · rw [if_neg hrem]
      rcases hb : builtin.lookup (dateFromTime t) with _ | m
      · simp [hrem]
      · simp [hrem]
  · simp

/-- Claim C4: two instants normalizing to the same CalendarDate are
indistinguishable to every engine operation (lookups, business-day
operations, searches, enumeration bounds, and the four overlay mutators);
results never depend on time-of-day or the input's offset. -/
theorem claim_C4 (builtin : List (date × String)) (c : Calendar) (t1 t2 : Instant)
    (h : dateFromTime t1 = dateFromTime t2) :
    c.IsHoliday builtin t1 = c.IsHoliday builtin t2 ∧
    c.HolidayName builtin t1 = c.HolidayName builtin t2 ∧
    c.IsBusinessDay builtin t1 = c.IsBusinessDay builtin t2 ∧
    c.NextHoliday builtin t1 = c.NextHoliday builtin t2 ∧
    c.PreviousHoliday builtin t1 = c.PreviousHoliday builtin t2 ∧
    c.NextBusinessDay builtin t1 = c.NextBusinessDay builtin t2 ∧
    c.PreviousBusinessDay builtin t1 = c.PreviousBusinessDay builtin t2 ∧
    (∀ s, c.BusinessDaysBetween builtin t1 s = c.BusinessDaysBetween builtin t2 s) ∧
    (∀ s, c.BusinessDaysBetween builtin s t1 = c.BusinessDaysBetween builtin s t2) ∧
    (∀ s, c.HolidaysBetween builtin t1 s = c.HolidaysBetween builtin t2 s) ∧
    (∀ s, c.HolidaysBetween builtin s t1 = c.HolidaysBetween builtin s t2) ∧
    (∀ name, c.AddCustomHoliday t1 name = c.AddCustomHoliday t2 name) ∧
    c.RemoveCustomHoliday t1 = c.RemoveCustomHoliday t2 ∧
    c.RemoveHoliday t1 = c.RemoveHoliday t2 ∧
    c.RestoreHoliday t1 = c.RestoreHoliday t2 := by
  have hwd := weekday_of_eq_date t1 t2 h
  refine ⟨?_, ?_, ?_, ?_, ?_, ?_, ?_, ?_, ?_, ?_, ?_, ?_, ?_, ?_, ?_⟩
  · unfold Calendar.IsHoliday; rw [h]
  · unfold Calendar.HolidayName; rw [h]
  · unfold Calendar.IsBusinessDay Calendar.IsHoliday; rw [h, hwd]
  · unfold Calendar.NextHoliday; rw [h]
  · unfold Calendar.PreviousHoliday; rw [h]
  · unfold Calendar.NextBusinessDay; rw [h]
  · unfold Calendar.PreviousBusinessDay; rw [h]
  · intro s; unfold Calendar.BusinessDaysBetween; rw [h]
  · intro s; unfold Calendar.BusinessDaysBetween; rw [h]
  · intro s; unfold Calendar.HolidaysBetween; rw [h]
  · intro s; unfold Calendar.HolidaysBetween; rw [h]
  · intro name; unfold Calendar.AddCustomHoliday; rw [h]
  · unfold Calendar.RemoveCustomHoliday; rw [h]
  · unfold Calendar.RemoveHoliday; rw [h]
  · unfold Calendar.RestoreHoliday; rw [h]

/-- Witness for claim C4 at concrete instants: 2026-01-01 14:59 UTC and
2025-12-31 20:00 UTC both normalize to JST 2026-01-01. -/
theorem claim_C4_witness :
    Calendar.IsHoliday [(⟨2026, 1, 1⟩, "元日")] Calendar.New (1767279540)
      = Calendar.IsHoliday [(⟨2026, 1, 1⟩, "元日")] Calendar.New (1767211200) :=
  (claim_C4 [(⟨2026, 1, 1⟩, "元日")] Calendar.New 1767279540 1767211200 (by decide)).1

/-- Claim C10: for every valid CalendarDate `d`, the engine's exposed
instant for `d` (midnight UTC, via `toTime`) normalizes back through
`dateFromTime` to `d` itself; consequently any instant the engine returns is
interpreted as that same calendar date when passed back in (here: by the
lookup resolution every operation is built on), even though it is midnight
UTC rather than midnight JST. -/
theorem claim_C10 (d : date) (h : validDate d) :
    dateFromTime d.toTime = d ∧
    (∀ (builtin : List (date × String)) (c : Calendar),
      c.lookup builtin (dateFromTime d.toTime) = c.lookup builtin d) := by
  have h1 := dateFromTime_toTime d h
  exact ⟨h1, fun builtin c => by rw [h1]⟩

/-- Witness for claim C10 at the concrete date 2026-01-01. -/
theorem claim_C10_witness : dateFromTime (date.toTime ⟨2026, 1, 1⟩) = ⟨2026, 1, 1⟩ :=
  (claim_C10 ⟨2026, 1, 1⟩ (by decide)).1

theorem toTime_shift (d : date) (k : Int) :
    (civilFromDays (daysFromCivil d + k)).toTime = d.toTime + 86400 * k := by
  unfold date.toTime
  rw [days_civil_id]
  ring

/-- Claim C3: `NextBusinessDay` scans the 366 consecutive dates `d`, `d+1`,
..., `d+365` (where `d` is the JST date of the input) and returns the
midnight date-only instant of the earliest one that is a business day — in
particular `d`'s own instant when `d` is already a business day — and the
empty sentinel (`none`, Go's zero `time.Time`) when none of the 366 dates is
a business day; `PreviousBusinessDay` is symmetric, scanning `d`, `d-1`,
..., `d-365`. -/
theorem claim_C3 (builtin : List (date × String)) (c : Calendar) (t : Instant) :
    (∀ r, c.NextBusinessDay builtin t = some r →
      ∃ i : Nat, i < 366 ∧ r = (civilFromDays (daysFromCivil (dateFromTime t) + (i : Int))).toTime ∧
        c.IsBusinessDay builtin r = true ∧
        ∀ j : Nat, j < i →
          c.IsBusinessDay builtin
            ((civilFromDays (daysFromCivil (dateFromTime t) + (j : Int))).toTime) = false) ∧
    (c.NextBusinessDay builtin t = none ↔
      ∀ i : Nat, i < 366 →
        c.IsBusinessDay builtin
          ((civilFromDays (daysFromCivil (dateFromTime t) + (i : Int))).toTime) = false) ∧
    (c.IsBusinessDay builtin (dateFromTime t).toTime = true →
      c.NextBusinessDay builtin t = some (dateFromTime t).toTime) ∧
    (∀ r, c.PreviousBusinessDay builtin t = some r →
      ∃ i : Nat, i < 366 ∧ r = (civilFromDays (daysFromCivil (dateFromTime t) - (i : Int))).toTime ∧
        c.IsBusinessDay builtin r = true ∧
        ∀ j : Nat, j < i →
          c.IsBusinessDay builtin
            ((civilFromDays (daysFromCivil (dateFromTime t) - (j : Int))).toTime) = false) ∧
    (c.PreviousBusinessDay builtin t = none ↔
      ∀ i : Nat, i < 366 →
        c.IsBusinessDay builtin
          ((civilFromDays (daysFromCivil (dateFromTime t) - (i : Int))).toTime) = false) ∧
    (c.IsBusinessDay builtin (dateFromTime t).toTime = true →
      c.PreviousBusinessDay builtin t = some (dateFromTime t).toTime) := by
  have hshift : ∀ k : Int, (civilFromDays (daysFromCivil (dateFromTime t) + k)).toTime
      = (dateFromTime t).toTime + 86400 * k := fun k => toTime_shift (dateFromTime t) k
  have hshiftneg : ∀ (j : Nat), (civilFromDays (daysFromCivil (dateFromTime t) - (j : Int))).toTime
      = (dateFromTime t).toTime + (-86400) * (j : Int) := by
    intro j
    have := toTime_shift (dateFromTime t) (-(j : Int))
    rw [show daysFromCivil (dateFromTime t) + -(j : Int)
        = daysFromCivil (dateFromTime t) - (j : Int) by ring] at this
    rw [this]
    ring
  have hnext := bdScan_spec builtin c 86400 ((dateFromTime t).toTime) 366
  have hprev := bdScan_spec builtin c (-86400) ((dateFromTime t).toTime) 366
  refine ⟨?_, ?_, ?_, ?_, ?_, ?_⟩
  · intro r hr
    obtain ⟨i, hi, hrr, hb, hmin⟩ := hnext.1 r hr
    refine ⟨i, hi, by rw [hshift]; exact hrr, hb, ?_⟩
    intro j hj
    rw [hshift]
    exact hmin j hj
  · unfold Calendar.NextBusinessDay
    rw [hnext.2]
    constructor
    · intro h i hi
      rw [hshift]
      exact h i hi
    · intro h i hi
      rw [← hshift]
      exact h i hi
  · intro hb
    unfold Calendar.NextBusinessDay
    rw [show (366 : Nat) = Nat.succ 365 from rfl, bdScan]
    rw [if_pos hb]
  · intro r hr
    obtain ⟨i, hi, hrr, hb, hmin⟩ := hprev.1 r hr
    refine ⟨i, hi, by rw [hshiftneg]; exact hrr, hb, ?_⟩
    intro j hj
    rw [hshiftneg]
    exact hmin j hj
  · unfold Calendar.PreviousBusinessDay
    rw [hprev.2]
    constructor
    · intro h i hi
      rw [hshiftneg]
      exact h i hi
    · intro h i hi
      rw [← hshiftneg]
      exact h i hi
  · intro hb
    unfold Calendar.PreviousBusinessDay
    rw [show (366 : Nat) = Nat.succ 365 from rfl, bdScan]
    rw [if_pos hb]

/-- Witness for claim C3: on the empty calendar with an empty dataset,
2026-06-06 (Saturday) is not a business day, and `NextBusinessDay` returns
some result, whose characterization follows from the claim at that input. -/
theorem claim_C3_witness :
    ∃ i : Nat, i < 366 ∧
      (1780876800 : Int) = (civilFromDays (daysFromCivil (dateFromTime 1780704000) + (i : Int))).toTime ∧
      Calendar.IsBusinessDay [] Calendar.New 1780876800 = true ∧
      ∀ j : Nat, j < i →
        Calendar.IsBusinessDay [] Calendar.New
          ((civilFromDays (daysFromCivil (dateFromTime 1780704000) + (j : Int))).toTime) = false :=
  (claim_C3 [] Calendar.New 1780704000).1 1780876800 (by decide)

/-- Claim C5: `BusinessDaysBetween` returns 0 whenever the `to` date
precedes the `from` date, and otherwise counts the business days among the
dates of the inclusive range `[fromD, toD]` (the `i`-th scanned instant is
the midnight instant of the `i`-th successor date of `fromD`); in
particular `BusinessDaysBetween(d, d)` is 1 when `d` is a business day and
0 otherwise. -/
theorem claim_C5 (builtin : List (date × String)) (c : Calendar) (t1 t2 : Instant) :
    ((dateFromTime t2).before (dateFromTime t1) = true →
      c.BusinessDaysBetween builtin t1 t2 = 0) ∧
    ((dateFromTime t2).before (dateFromTime t1) = false →
      0 ≤ daysFromCivil (dateFromTime t2) - daysFromCivil (dateFromTime t1) ∧
      c.BusinessDaysBetween builtin t1 t2 =
        (List.range ((daysFromCivil (dateFromTime t2) - daysFromCivil (dateFromTime t1)).toNat
            + 1)).countP
          (fun i : Nat => c.IsBusinessDay builtin
            ((civilFromDays (daysFromCivil (dateFromTime t1) + (i : Int))).toTime))) ∧
    (c.BusinessDaysBetween builtin t1 t1 =
      if c.IsBusinessDay builtin (dateFromTime t1).toTime then 1 else 0) := by
  have hv1 := dateFromTime_valid t1
  have hv2 := dateFromTime_valid t2
  refine ⟨?_, ?_, ?_⟩
  · intro h
    unfold Calendar.BusinessDaysBetween
    rw [if_pos h]
  · intro h
    have hle : daysFromCivil (dateFromTime t1) ≤ daysFromCivil (dateFromTime t2) := by
      by_contra hlt
      push_neg at hlt
      rw [(before_days (dateFromTime t2) (dateFromTime t1) hv2 hv1).mpr hlt] at h
      cases h
    refine ⟨by omega, ?_⟩
    unfold Calendar.BusinessDaysBetween
    rw [if_neg (by rw [h]; intro hx; cases hx)]
    have hend : (dateFromTime t2).toTime = (dateFromTime t1).toTime
        + 86400 * (((daysFromCivil (dateFromTime t2) - daysFromCivil (dateFromTime t1)).toNat
          : Nat) : Int) := by
      unfold date.toTime
      rw [Int.toNat_of_nonneg (by omega)]
      ring
    rw [hend, bdCount_spec builtin c _ ((dateFromTime t1).toTime)]
    congr 1
    funext i
    congr 1
    rw [toTime_shift]
  · unfold Calendar.BusinessDaysBetween
    rw [if_neg (by rw [before_irrefl]; intro hx; cases hx)]
    rw [bdCount]
    rw [dif_neg (by omega)]
    rw [bdCount]
    rw [dif_pos (by omega)]
    by_cases hb : c.IsBusinessDay builtin (dateFromTime t1).toTime = true
    · rw [if_pos hb]
    · rw [if_neg hb]

/-- Witness for claim C5: a same-day weekend query (2026-06-06, Saturday)
counts 0 business days. -/
theorem claim_C5_witness :
    Calendar.BusinessDaysBetween [] Calendar.New 1780704000 1780704000 =
      if Calendar.IsBusinessDay [] Calendar.New (dateFromTime 1780704000).toTime then 1 else 0 :=
  (claim_C5 [] Calendar.New 1780704000 1780704000).2.2

/-- Counterexample to claim C7 as stated: for a Calendar state whose custom
overlay also contains the built-in date 2026-01-01, `RemoveHoliday` does
not make `IsHoliday` false (custom entries always take precedence,
regardless of `removed`). -/
theorem claim_C7_counterexample :
    ((⟨2026, 1, 1⟩ : date) ∈ ([(⟨2026, 1, 1⟩, "元日")] : List (date × String)).map Prod.fst) ∧
    (Calendar.RemoveHoliday ⟨[(⟨2026, 1, 1⟩, "社内休日")], []⟩
        (date.toTime ⟨2026, 1, 1⟩)).IsHoliday [(⟨2026, 1, 1⟩, "元日")]
      (date.toTime ⟨2026, 1, 1⟩) = true := by
  decide

/-- Claim C7 (amended): for every Calendar state in which the built-in
date `d` has no custom entry and is not already suppressed, `RemoveHoliday`
makes `IsHoliday(d)` false, and a subsequent `RestoreHoliday` restores the
exact prior state, hence `IsHoliday(d)` and `HolidayName(d)` revert to their
pre-removal values. -/
theorem claim_C7 (builtin : List (date × String)) (c : Calendar) (t : Instant)
    (hcu : c.custom.lookup (dateFromTime t) = none)
    (hrem : dateFromTime t ∉ c.removed)
    (hb : (builtin.lookup (dateFromTime t)).isSome = true) :
    (c.RemoveHoliday t).IsHoliday builtin t = false ∧
    (c.RemoveHoliday t).RestoreHoliday t = c ∧
    ((c.RemoveHoliday t).RestoreHoliday t).IsHoliday builtin t = c.IsHoliday builtin t ∧
    ((c.RemoveHoliday t).RestoreHoliday t).HolidayName builtin t
      = c.HolidayName builtin t := by
  have hstate : (c.RemoveHoliday t).RestoreHoliday t = c := by
    obtain ⟨cu, rem⟩ := c
    simp only [Calendar.RemoveHoliday, Calendar.RestoreHoliday] at hrem ⊢
    rw [if_neg hrem]
    congr 1
    rw [List.filter_cons]
    rw [if_neg (by simp)]
    apply List.filter_eq_self.mpr
    intro a ha
    simp only [decide_eq_true_eq]
    intro had
    exact hrem (had ▸ ha)
  refine ⟨?_, hstate, by rw [hstate], by rw [hstate]⟩
  unfold Calendar.IsHoliday Calendar.lookup
  simp only [Calendar.RemoveHoliday]
  simp only [hcu]
  have hmemb : dateFromTime t ∈
      (if dateFromTime t ∈ c.removed then c.removed else dateFromTime t :: c.removed) := by
    rw [if_neg hrem]
    exact List.mem_cons_self _ _
  rw [if_pos hmemb]
  rfl

/-- Witness for claim C7 on a concrete one-entry dataset and the empty
overlay at 2026-01-01. -/
theorem claim_C7_witness :
    (Calendar.RemoveHoliday Calendar.New (date.toTime ⟨2026, 1, 1⟩)).IsHoliday
      [(⟨2026, 1, 1⟩, "元日")] (date.toTime ⟨2026, 1, 1⟩) = false :=
  (claim_C7 [(⟨2026, 1, 1⟩, "元日")] Calendar.New (date.toTime ⟨2026, 1, 1⟩)
    (by decide) (by decide) (by decide)).1

/-- Counterexample to claim C8 as stated: adding a custom holiday with the
empty string as its name produces a reachable state where `IsHoliday` is
true yet `HolidayName` returns the empty string. -/
theorem claim_C8_counterexample :
    (Calendar.AddCustomHoliday Calendar.New (date.toTime ⟨2026, 6, 15⟩) "").IsHoliday []
        (date.toTime ⟨2026, 6, 15⟩) = true ∧
    (Calendar.AddCustomHoliday Calendar.New (date.toTime ⟨2026, 6, 15⟩) "").HolidayName []
        (date.toTime ⟨2026, 6, 15⟩) = "" := by
  decide

/-- Claim C8 (amended): in every Calendar state whose custom names and
dataset names are all non-empty, `HolidayName` returns the empty string iff
`IsHoliday` is false; every holiday date then has a non-empty name. -/
theorem claim_C8 (builtin : List (date × String)) (c : Calendar) (t : Instant)
    (hc : ∀ e ∈ c.custom, e.2 ≠ "") (hb : ∀ e ∈ builtin, e.2 ≠ "") :
    (c.HolidayName builtin t = "" ↔ c.IsHoliday builtin t = false) := by
  unfold Calendar.HolidayName Calendar.IsHoliday Calendar.lookup
  rcases hcu : c.custom.lookup (dateFromTime t) with _ | n
  · by_cases hrem : dateFromTime t ∈ c.removed
    · rw [if_pos hrem]
      simp
    · rw [if_neg hrem]
      rcases hbl : builtin.lookup (dateFromTime t) with _ | m
      · simp
      · have := hb _ (mem_of_lookup hbl)
        simpa using this
  · have := hc _ (mem_of_lookup hcu)
    simpa using this

/-- Witness for claim C8 on a concrete non-empty-named state. -/
theorem claim_C8_witness :
    Calendar.HolidayName [(⟨2026, 1, 1⟩, "元日")] Calendar.New (date.toTime ⟨2026, 1, 1⟩) = ""
      ↔ Calendar.IsHoliday [(⟨2026, 1, 1⟩, "元日")] Calendar.New
          (date.toTime ⟨2026, 1, 1⟩) = false :=
  claim_C8 [(⟨2026, 1, 1⟩, "元日")] Calendar.New (date.toTime ⟨2026, 1, 1⟩)
    (by intro e he; cases he) (by
      intro e he
      rcases List.mem_singleton.mp he with rfl
      decide)

theorem mem_filter_removed (c : Calendar) (builtin : List (date × String)) (e : date × String) :
    e ∈ builtin.filter (fun e => !(decide (e.1 ∈ c.removed))) ↔
      e ∈ builtin ∧ e.1 ∉ c.removed := by
  rw [List.mem_filter]
  simp

/-- Full characterization of the two successive scan loops of
`NextHoliday`/`PreviousHoliday` when they find a result. -/
theorem twoStage_spec (cand : date → Bool) (better : date → date → Bool)
    (htrans : ∀ x y z, better x y = true → better y z = true → better x z = true)
    (hirr : ∀ x, better x x = false)
    (builtin : List (date × String)) (c : Calendar) (b : date × String)
    (hres : c.custom.foldl (selStep cand better)
        ((builtin.filter (fun e => !(decide (e.1 ∈ c.removed)))).foldl
          (selStep cand better) none) = some b) :
    cand b.1 = true ∧
    ((b ∈ builtin ∧ b.1 ∉ c.removed) ∨
      (b ∈ c.custom ∧ ∀ n, (b.1, n) ∈ builtin → b.1 ∈ c.removed)) ∧
    (∀ e ∈ c.custom, cand e.1 = true → better e.1 b.1 = false) ∧
    (∀ e ∈ builtin, e.1 ∉ c.removed → cand e.1 = true → better e.1 b.1 = false) := by
  rcases hacc1 : (builtin.filter (fun e => !(decide (e.1 ∈ c.removed)))).foldl
      (selStep cand better) none with _ | a
  · rw [hacc1] at hres
    have hnone := (foldl_selStep_none cand better _ none).mp hacc1
    obtain ⟨hc, hmem, hmin, _⟩ :=
      foldl_selStep_spec cand better htrans hirr c.custom none b (fun a ha => by cases ha) hres
    have hmemC : b ∈ c.custom := by
      rcases hmem with hmem | hmem
      · exact hmem
      · cases hmem
    refine ⟨hc, Or.inr ⟨hmemC, ?_⟩, hmin, ?_⟩
    · intro n hn
      by_contra hrem
      have := hnone.2 (b.1, n) ((mem_filter_removed c builtin (b.1, n)).mpr ⟨hn, hrem⟩)
      rw [hc] at this
      cases this
    · intro e he hrem hce
      have := hnone.2 e ((mem_filter_removed c builtin e).mpr ⟨he, hrem⟩)
      rw [hce] at this
      cases this
  · rw [hacc1] at hres
    obtain ⟨hcA, hmemA, hminA, _⟩ :=
      foldl_selStep_spec cand better htrans hirr _ none a (fun x hx => by cases hx) hacc1
    have hmemA' : a ∈ builtin ∧ a.1 ∉ c.removed := by
      rcases hmemA with h | h
      · exact (mem_filter_removed c builtin a).mp h
      · cases h
    obtain ⟨hc, hmem, hmin, himp⟩ :=
      foldl_selStep_spec cand better htrans hirr c.custom (some a) b
        (fun x hx => by cases hx; exact hcA) hres
    have himpa := himp a rfl
    refine ⟨hc, ?_, hmin, ?_⟩
    · rcases himpa with hba | hbb
      · subst hba
        exact Or.inl hmemA'
      · have hmemC : b ∈ c.custom := by
          rcases hmem with h | h
          · exact h
          · exfalso
            cases h
            rw [hirr] at hbb
            cases hbb
        refine Or.inr ⟨hmemC, ?_⟩
        intro n hn
        by_contra hrem
        have := hminA (b.1, n) ((mem_filter_removed c builtin (b.1, n)).mpr ⟨hn, hrem⟩) hc
        rw [this] at hbb
        cases hbb
    · intro e he hrem hce
      have hea := hminA e ((mem_filter_removed c builtin e).mpr ⟨he, hrem⟩) hce
      rcases himpa with hba | hbb
      · subst hba
        exact hea
      · by_contra heb
        simp only [Bool.not_eq_false] at heb
        have := htrans _ _ _ heb hbb
        rw [this] at hea
        cases hea

/-- The two successive scan loops find nothing iff no candidate satisfies
the scan predicate. -/
theorem twoStage_none (cand : date → Bool) (better : date → date → Bool)
    (builtin : List (date × String)) (c : Calendar) :
    (c.custom.foldl (selStep cand better)
        ((builtin.filter (fun e => !(decide (e.1 ∈ c.removed)))).foldl
          (selStep cand better) none) = none) ↔
      ((∀ e ∈ builtin, e.1 ∉ c.removed → cand e.1 = false) ∧
        (∀ e ∈ c.custom, cand e.1 = false)) := by
  rw [foldl_selStep_none, foldl_selStep_none]
  constructor
  · rintro ⟨⟨_, h1⟩, h2⟩
    exact ⟨fun e he hrem => h1 e ((mem_filter_removed c builtin e).mpr ⟨he, hrem⟩), h2⟩
  · rintro ⟨h1, h2⟩
    exact ⟨⟨rfl, fun e he => by
      obtain ⟨hmem, hrem⟩ := (mem_filter_removed c builtin e).mp he
      exact h1 e hmem hrem⟩, h2⟩

theorem after_trans (x y z : date) (h1 : x.after y = true) (h2 : y.after z = true) :
    x.after z = true :=
  before_trans z y x h2 h1

theorem after_irrefl (x : date) : x.after x = false := before_irrefl x

/-- Claim C9: for datasets and overlays whose keys are real calendar dates,
`NextHoliday` and `PreviousHoliday` never return a Holiday whose date equals
the query date `d`, even when `d` itself is a holiday: the returned date is
strictly greater than `d` for next and strictly less for previous. -/
theorem claim_C9 (builtin : List (date × String)) (c : Calendar) (t : Instant)
    (hbv : ∀ e ∈ builtin, validDate e.1) (hcv : ∀ e ∈ c.custom, validDate e.1) :
    (∀ h, c.NextHoliday builtin t = some h →
      dateFromTime h.Date ≠ dateFromTime t ∧
      (dateFromTime t).before (dateFromTime h.Date) = true) ∧
    (∀ h, c.PreviousHoliday builtin t = some h →
      dateFromTime h.Date ≠ dateFromTime t ∧
      (dateFromTime h.Date).before (dateFromTime t) = true) := by
  constructor
  · intro h hres
    simp only [Calendar.NextHoliday] at hres
    obtain ⟨b, hfold, hb⟩ := Option.map_eq_some'.mp hres
    obtain ⟨hc, hmem, _, _⟩ := twoStage_spec _ _ before_trans before_irrefl builtin c b hfold
    have hvalid : validDate b.1 := by
      rcases hmem with ⟨hm, _⟩ | ⟨hm, _⟩
      · exact hbv b hm
      · exact hcv b hm
    have hdate : dateFromTime h.Date = b.1 := by
      rw [← hb]
      exact dateFromTime_toTime b.1 hvalid
    have hcand : (dateFromTime t).before b.1 = true := hc
    rw [hdate]
    refine ⟨?_, hcand⟩
    intro heq
    rw [heq] at hcand
    rw [before_irrefl] at hcand
    cases hcand
  · intro h hres
    simp only [Calendar.PreviousHoliday] at hres
    obtain ⟨b, hfold, hb⟩ := Option.map_eq_some'.mp hres
    obtain ⟨hc, hmem, _, _⟩ := twoStage_spec _ _ after_trans after_irrefl builtin c b hfold
    have hvalid : validDate b.1 := by
      rcases hmem with ⟨hm, _⟩ | ⟨hm, _⟩
      · exact hbv b hm
      · exact hcv b hm
    have hdate : dateFromTime h.Date = b.1 := by
      rw [← hb]
      exact dateFromTime_toTime b.1 hvalid
    have hcand : b.1.before (dateFromTime t) = true := hc
    rw [hdate]
    refine ⟨?_, hcand⟩
    intro heq
    rw [heq] at hcand
    rw [before_irrefl] at hcand
    cases hcand

/-- Witness for claim C9: next holiday after 2026-01-01 on a two-entry
dataset is not 2026-01-01 itself. -/
theorem claim_C9_witness :
    dateFromTime (Holiday.Date { Date := date.toTime ⟨2026, 1, 12⟩, Name := "成人の日" })
      ≠ dateFromTime (date.toTime ⟨2026, 1, 1⟩) ∧
    (dateFromTime (date.toTime ⟨2026, 1, 1⟩)).before
      (dateFromTime (Holiday.Date { Date := date.toTime ⟨2026, 1, 12⟩, Name := "成人の日" }))
      = true :=
  (claim_C9 [(⟨2026, 1, 1⟩, "元日"), (⟨2026, 1, 12⟩, "成人の日")] Calendar.New
      (date.toTime ⟨2026, 1, 1⟩)
      (by decide) (by decide)).1
    { Date := date.toTime ⟨2026, 1, 12⟩, Name := "成人の日" } (by decide)

theorem nodup_mem_unique {α β : Type} [DecidableEq α] {l : List (α × β)} {a : α} {b1 b2 : β}
    (hn : (l.map Prod.fst).Nodup) (h1 : (a, b1) ∈ l) (h2 : (a, b2) ∈ l) : b1 = b2 := by
  have e1 := lookup_eq_some_of_mem_nodup hn h1
  have e2 := lookup_eq_some_of_mem_nodup hn h2
  rw [e1] at e2
  cases e2
  rfl

/-- Counterexample to claim C2 as stated: when the minimal candidate date
strictly after `d` carries both a (non-removed) built-in entry and a custom
entry, `NextHoliday` returns the built-in name, while the §4.2 precedence
resolution at that date returns the custom name.  The built-in scan runs
first and the custom scan only replaces the current best on a strictly
earlier date. -/
theorem claim_C2_counterexample :
    (Calendar.NextHoliday [(⟨2026, 1, 2⟩, "B")] ⟨[(⟨2026, 1, 2⟩, "C")], []⟩
        (date.toTime ⟨2026, 1, 1⟩)).map Holiday.Name = some "B" ∧
    Calendar.lookup [(⟨2026, 1, 2⟩, "B")] ⟨[(⟨2026, 1, 2⟩, "C")], []⟩ ⟨2026, 1, 2⟩
      = some "C" := by
  decide

/-- Claim C2 (amended): `NextHoliday` (resp. `PreviousHoliday`) returns
`found = false` exactly when no candidate — non-removed Dataset key or
custom key — lies strictly after (resp. before) the query date `d`;
otherwise it returns the minimal (resp. maximal) such candidate date with a
name resolved with *Dataset preference*: the Dataset name when the chosen
date is a non-removed Dataset key, and the custom name otherwise. -/
theorem claim_C2 (builtin : List (date × String)) (c : Calendar) (t : Instant)
    (hnB : (builtin.map Prod.fst).Nodup) (hnC : (c.custom.map Prod.fst).Nodup) :
    (c.NextHoliday builtin t = none ↔
      ((∀ e ∈ builtin, e.1 ∉ c.removed → e.1.after (dateFromTime t) = false) ∧
        (∀ e ∈ c.custom, e.1.after (dateFromTime t) = false))) ∧
    (∀ h, c.NextHoliday builtin t = some h → ∃ bd : date,
      h.Date = bd.toTime ∧
      bd.after (dateFromTime t) = true ∧
      ((bd ∉ c.removed ∧ (bd, h.Name) ∈ builtin) ∨ (bd, h.Name) ∈ c.custom) ∧
      (∀ e ∈ builtin, e.1 ∉ c.removed → e.1.after (dateFromTime t) = true →
        e.1.before bd = false) ∧
      (∀ e ∈ c.custom, e.1.after (dateFromTime t) = true → e.1.before bd = false) ∧
      (∀ n, (bd, n) ∈ builtin → bd ∉ c.removed → h.Name = n) ∧
      ((∀ n, (bd, n) ∈ builtin → bd ∈ c.removed) → c.custom.lookup bd = some h.Name)) ∧
    (c.PreviousHoliday builtin t = none ↔
      ((∀ e ∈ builtin, e.1 ∉ c.removed → e.1.before (dateFromTime t) = false) ∧
        (∀ e ∈ c.custom, e.1.before (dateFromTime t) = false))) ∧
    (∀ h, c.PreviousHoliday builtin t = some h → ∃ bd : date,
      h.Date = bd.toTime ∧
      bd.before (dateFromTime t) = true ∧
      ((bd ∉ c.removed ∧ (bd, h.Name) ∈ builtin) ∨ (bd, h.Name) ∈ c.custom) ∧
      (∀ e ∈ builtin, e.1 ∉ c.removed → e.1.before (dateFromTime t) = true →
        e.1.after bd = false) ∧
      (∀ e ∈ c.custom, e.1.before (dateFromTime t) = true → e.1.after bd = false) ∧
      (∀ n, (bd, n) ∈ builtin → bd ∉ c.removed → h.Name = n) ∧
      ((∀ n, (bd, n) ∈ builtin → bd ∈ c.removed) → c.custom.lookup bd = some h.Name)) := by
  refine ⟨?_, ?_, ?_, ?_⟩
  · unfold Calendar.NextHoliday
    rw [Option.map_eq_none']
    exact twoStage_none _ _ builtin c
  · intro h hres
    simp only [Calendar.NextHoliday] at hres
    obtain ⟨b, hfold, hb⟩ := Option.map_eq_some'.mp hres
    obtain ⟨hc, hmem, hminC, hminB⟩ :=
      twoStage_spec _ _ before_trans before_irrefl builtin c b hfold
    have hDate : h.Date = b.1.toTime := by rw [← hb]
    have hName : h.Name = b.2 := by rw [← hb]
    refine ⟨b.1, hDate, hc, ?_, hminB, hminC, ?_, ?_⟩
    · rcases hmem with ⟨hm, hr⟩ | ⟨hm, _⟩
      · exact Or.inl ⟨hr, by rw [hName]; exact (by cases b; exact hm)⟩
      · exact Or.inr (by rw [hName]; exact (by cases b; exact hm))
    · intro n hn hrem
      rcases hmem with ⟨hm, _⟩ | ⟨_, hall⟩
      · rw [hName]
        exact (nodup_mem_unique hnB hn (by cases b; exact hm)).symm
      · exact absurd (hall n hn) hrem
    · intro hall
      rcases hmem with ⟨hm, hr⟩ | ⟨hm, _⟩
      · exact absurd (hall b.2 (by cases b; exact hm)) hr
      · rw [hName]
        exact lookup_eq_some_of_mem_nodup hnC (by cases b; exact hm)
  · unfold Calendar.PreviousHoliday
    rw [Option.map_eq_none']
    exact twoStage_none _ _ builtin c
  · intro h hres
    simp only [Calendar.PreviousHoliday] at hres
    obtain ⟨b, hfold, hb⟩ := Option.map_eq_some'.mp hres
    obtain ⟨hc, hmem, hminC, hminB⟩ :=
      twoStage_spec _ _ after_trans after_irrefl builtin c b hfold
    have hDate : h.Date = b.1.toTime := by rw [← hb]
    have hName : h.Name = b.2 := by rw [← hb]
    refine ⟨b.1, hDate, hc, ?_, hminB, hminC, ?_, ?_⟩
    · rcases hmem with ⟨hm, hr⟩ | ⟨hm, _⟩
      · exact Or.inl ⟨hr, by rw [hName]; exact (by cases b; exact hm)⟩
      · exact Or.inr (by rw [hName]; exact (by cases b; exact hm))
    · intro n hn hrem
      rcases hmem with ⟨hm, _⟩ | ⟨_, hall⟩
      · rw [hName]
        exact (nodup_mem_unique hnB hn (by cases b; exact hm)).symm
      · exact absurd (hall n hn) hrem
    · intro hall
      rcases hmem with ⟨hm, hr⟩ | ⟨hm, _⟩
      · exact absurd (hall b.2 (by cases b; exact hm)) hr
      · rw [hName]
        exact lookup_eq_some_of_mem_nodup hnC (by cases b; exact hm)

/-- Witness for claim C2 at a concrete dataset and query: the next holiday
after 2026-01-01 exists and is characterized by the claim. -/
theorem claim_C2_witness :
    ∃ bd : date,
      Holiday.Date { Date := date.toTime ⟨2026, 1, 12⟩, Name := "成人の日" } = bd.toTime ∧
      bd.after (dateFromTime (date.toTime ⟨2026, 1, 1⟩)) = true ∧
      ((bd ∉ Calendar.New.removed ∧
          (bd, Holiday.Name { Date := date.toTime ⟨2026, 1, 12⟩, Name := "成人の日" })
            ∈ [(⟨2026, 1, 1⟩, "元日"), (⟨2026, 1, 12⟩, "成人の日")]) ∨
        (bd, Holiday.Name { Date := date.toTime ⟨2026, 1, 12⟩, Name := "成人の日" })
          ∈ Calendar.New.custom) ∧
      (∀ e ∈ [((⟨2026, 1, 1⟩ : date), "元日"), (⟨2026, 1, 12⟩, "成人の日")],
        e.1 ∉ Calendar.New.removed →
        e.1.after (dateFromTime (date.toTime ⟨2026, 1, 1⟩)) = true → e.1.before bd = false) ∧
      (∀ e ∈ Calendar.New.custom,
        e.1.after (dateFromTime (date.toTime ⟨2026, 1, 1⟩)) = true → e.1.before bd = false) ∧
      (∀ n, (bd, n) ∈ [((⟨2026, 1, 1⟩ : date), "元日"), (⟨2026, 1, 12⟩, "成人の日")] →
        bd ∉ Calendar.New.removed →
        Holiday.Name { Date := date.toTime ⟨2026, 1, 12⟩, Name := "成人の日" } = n) ∧
      ((∀ n, (bd, n) ∈ [((⟨2026, 1, 1⟩ : date), "元日"), (⟨2026, 1, 12⟩, "成人の日")] →
          bd ∈ Calendar.New.removed) →
        Calendar.New.custom.lookup bd
          = some (Holiday.Name { Date := date.toTime ⟨2026, 1, 12⟩, Name := "成人の日" })) :=
  (claim_C2 [(⟨2026, 1, 1⟩, "元日"), (⟨2026, 1, 12⟩, "成人の日")] Calendar.New
      (date.toTime ⟨2026, 1, 1⟩) (by decide) (by decide)).2.1
    { Date := date.toTime ⟨2026, 1, 12⟩, Name := "成人の日" } (by decide)

theorem holidaysInRange_mem (builtin : List (date × String)) (c : Calendar) (lo hi : date)
    (hnB : (builtin.map Prod.fst).Nodup) (hnC : (c.custom.map Prod.fst).Nodup) (h : Holiday) :
    h ∈ c.holidaysInRange builtin lo hi ↔
      ∃ dd, h.Date = dd.toTime ∧ dd.inRange lo hi = true ∧
        ((c.custom.lookup dd = some h.Name) ∨
          (c.custom.lookup dd = none ∧ dd ∉ c.removed ∧ builtin.lookup dd = some h.Name)) := by
  unfold Calendar.holidaysInRange
  rw [(List.mergeSort_perm _ _).mem_iff, List.mem_map]
  constructor
  · rintro ⟨e, he, heq⟩
    rw [List.mem_append] at he
    rcases he with he | he
    · rw [List.mem_filter] at he
      obtain ⟨hmem, hcond⟩ := he
      simp only [Bool.and_eq_true, Bool.not_eq_true', decide_eq_false_iff_not,
        Option.isNone_iff_eq_none] at hcond
      refine ⟨e.1, by rw [← heq], hcond.2, Or.inr ⟨hcond.1.2, hcond.1.1, ?_⟩⟩
      rw [show h.Name = e.2 by rw [← heq]]
      exact lookup_eq_some_of_mem_nodup hnB (by cases e; exact hmem)
    · rw [List.mem_filter] at he
      obtain ⟨hmem, hcond⟩ := he
      refine ⟨e.1, by rw [← heq], hcond, Or.inl ?_⟩
      rw [show h.Name = e.2 by rw [← heq]]
      exact lookup_eq_some_of_mem_nodup hnC (by cases e; exact hmem)
  · rintro ⟨dd, hdate, hrange, hcase⟩
    rcases hcase with hcu | ⟨hcu, hrem, hbl⟩
    · refine ⟨(dd, h.Name), ?_, ?_⟩
      · rw [List.mem_append]
        right
        rw [List.mem_filter]
        exact ⟨mem_of_lookup hcu, hrange⟩
      · cases h
        simp_all
    · refine ⟨(dd, h.Name), ?_, ?_⟩
      · rw [List.mem_append]
        left
        rw [List.mem_filter]
        refine ⟨mem_of_lookup hbl, ?_⟩
        simp only [Bool.and_eq_true, Bool.not_eq_true', decide_eq_false_iff_not,
          Option.isNone_iff_eq_none]
        exact ⟨⟨hrem, hcu⟩, hrange⟩
      · cases h
        simp_all

theorem toTime_inj (a b : date) (ha : validDate a) (hb : validDate b)
    (h : a.toTime = b.toTime) : a = b := by
  unfold date.toTime at h
  have h2 : daysFromCivil a * 86400 = daysFromCivil b * 86400 := h
  have hd : daysFromCivil a = daysFromCivil b := by omega
  rw [← civil_days_id a ha, ← civil_days_id b hb, hd]

theorem sorted_strict {l : List Holiday}
    (h1 : l.Pairwise (fun a b => decide (a.Date ≤ b.Date) = true))
    (h2 : (l.map Holiday.Date).Nodup) : l.Pairwise (fun a b => a.Date < b.Date) := by
  have hne : l.Pairwise (fun a b => a.Date ≠ b.Date) := List.pairwise_map.mp h2
  exact (h1.and hne).imp (fun hab =>
    lt_of_le_of_ne (by simpa using hab.1) hab.2)

theorem holidaysInRange_sorted (builtin : List (date × String)) (c : Calendar) (lo hi : date)
    (hnB : (builtin.map Prod.fst).Nodup) (hnC : (c.custom.map Prod.fst).Nodup)
    (hvB : ∀ e ∈ builtin, validDate e.1) (hvC : ∀ e ∈ c.custom, validDate e.1) :
    (c.holidaysInRange builtin lo hi).Pairwise (fun a b => a.Date < b.Date) := by
  unfold Calendar.holidaysInRange
  apply sorted_strict
  · exact List.sorted_mergeSort
      (fun a b c hab hbc => by
        simp only [decide_eq_true_eq] at *
        exact le_trans hab hbc)
      (fun a b => by
        simp only [Bool.or_eq_true, decide_eq_true_eq]
        exact Int.le_total _ _)
      _
  · -- the dates of the sorted output are pairwise distinct
    have hperm := (List.mergeSort_perm
      (((builtin.filter (fun e =>
          !(decide (e.1 ∈ c.removed)) && (c.custom.lookup e.1).isNone && e.1.inRange lo hi))
        ++ (c.custom.filter (fun e => e.1.inRange lo hi))).map
          (fun e => ({ Date := e.1.toTime, Name := e.2 } : Holiday)))
      (fun a b => decide (a.Date ≤ b.Date))).map Holiday.Date
    apply hperm.nodup_iff.mpr
    rw [List.map_map]
    have hrw : (Holiday.Date ∘ fun e : date × String => ({ Date := e.1.toTime, Name := e.2 } : Holiday))
        = (date.toTime ∘ Prod.fst) := rfl
    rw [hrw, ← List.map_map]
    apply List.Nodup.map_on
    · intro x hx y hy hxy
      have hvalid : ∀ z, z ∈ (((builtin.filter (fun e =>
          !(decide (e.1 ∈ c.removed)) && (c.custom.lookup e.1).isNone && e.1.inRange lo hi))
            ++ (c.custom.filter (fun e => e.1.inRange lo hi))).map Prod.fst) → validDate z := by
        intro z hz
        rw [List.mem_map] at hz
        obtain ⟨e, he, hez⟩ := hz
        rw [List.mem_append] at he
        rcases he with he | he
        · rw [List.mem_filter] at he
          rw [← hez]
          exact hvB e he.1
        · rw [List.mem_filter] at he
          rw [← hez]
          exact hvC e he.1
      exact toTime_inj x y (hvalid x hx) (hvalid y hy) hxy
    · rw [List.map_append]
      apply List.Nodup.append
      · exact List.Nodup.sublist (List.Sublist.map Prod.fst (List.filter_sublist _)) hnB
      · exact List.Nodup.sublist (List.Sublist.map Prod.fst (List.filter_sublist _)) hnC
      · intro x hxB hxC
        rw [List.mem_map] at hxB hxC
        obtain ⟨e1, he1, he1x⟩ := hxB
        obtain ⟨e2, he2, he2x⟩ := hxC
        rw [List.mem_filter] at he1 he2
        have hnone : (c.custom.lookup e1.1).isNone = true := by
          have := he1.2
          simp only [Bool.and_eq_true] at this
          exact this.1.2
        have hsome : (c.custom.lookup e1.1).isSome = true := by
          rw [show e1.1 = e2.1 by
            have := he1x.trans he2x.symm
            exact this]
          exact lookup_isSome_of_mem he2.1
        rw [Option.isNone_iff_eq_none] at hnone
        rw [hnone] at hsome
        cases hsome

/-- C6: for every Calendar state and every inclusive range, the enumeration
result is exactly the set of in-range dates carrying either a custom entry
(emitted once, with the custom name) or a built-in entry that is neither
removed nor shadowed by a custom entry on the same date; the list is sorted
strictly ascending by date (hence each date appears at most once); a range
with `from` after `to` yields the empty list; and the year/month variants
are the range enumeration at their computed bounds (Jan 1 to Dec 31, and
the 1st to the last day of the month). -/
theorem claim_C6 (builtin : List (date × String)) (c : Calendar) (lo hi : date)
    (frm toT : Instant) (year month : Int)
    (hnB : (builtin.map Prod.fst).Nodup) (hnC : (c.custom.map Prod.fst).Nodup)
    (hvB : ∀ e ∈ builtin, validDate e.1) (hvC : ∀ e ∈ c.custom, validDate e.1) :
    (∀ h, h ∈ c.holidaysInRange builtin lo hi ↔
      ∃ dd, h.Date = dd.toTime ∧ dd.inRange lo hi = true ∧
        ((c.custom.lookup dd = some h.Name) ∨
          (c.custom.lookup dd = none ∧ dd ∉ c.removed ∧ builtin.lookup dd = some h.Name))) ∧
    (c.holidaysInRange builtin lo hi).Pairwise (fun a b => a.Date < b.Date) ∧
    ((dateFromTime toT).before (dateFromTime frm) = true →
      c.HolidaysBetween builtin frm toT = []) ∧
    ((dateFromTime toT).before (dateFromTime frm) = false →
      c.HolidaysBetween builtin frm toT =
        c.holidaysInRange builtin (dateFromTime frm) (dateFromTime toT)) ∧
    c.HolidaysInYear builtin year = c.holidaysInRange builtin ⟨year, 1, 1⟩ ⟨year, 12, 31⟩ ∧
    c.HolidaysInMonth builtin year month =
      c.holidaysInRange builtin ⟨year, month, 1⟩ ⟨year, month, daysInMonth year month⟩ := by
  refine ⟨fun h => holidaysInRange_mem builtin c lo hi hnB hnC h,
    holidaysInRange_sorted builtin c lo hi hnB hnC hvB hvC, ?_, ?_, rfl, rfl⟩
  · intro hrev
    unfold Calendar.HolidaysBetween
    rw [if_pos hrev]
  · intro hrev
    unfold Calendar.HolidaysBetween
    rw [if_neg (by rw [hrev]; exact Bool.false_ne_true)]

theorem claim_C6_witness :
    (([((⟨2026, 1, 1⟩ : date), "元日"), ((⟨2026, 1, 12⟩ : date), "成人の日")].map Prod.fst).Nodup ∧
     (Calendar.New.custom.map Prod.fst).Nodup ∧
     (∀ e ∈ [((⟨2026, 1, 1⟩ : date), "元日"), ((⟨2026, 1, 12⟩ : date), "成人の日")], validDate e.1) ∧
     (∀ e ∈ Calendar.New.custom, validDate e.1)) ∧
    (Calendar.New.holidaysInRange
        [((⟨2026, 1, 1⟩ : date), "元日"), ((⟨2026, 1, 12⟩ : date), "成人の日")]
        ⟨2026, 1, 1⟩ ⟨2026, 12, 31⟩).Pairwise (fun a b => a.Date < b.Date) :=
  ⟨⟨by decide, by decide, by decide, by decide⟩,
    (claim_C6 [((⟨2026, 1, 1⟩ : date), "元日"), ((⟨2026, 1, 12⟩ : date), "成人の日")]
      Calendar.New ⟨2026, 1, 1⟩ ⟨2026, 12, 31⟩ 0 0 2026 1
      (by decide) (by decide) (by decide) (by decide)).2.1⟩
